import Mathlib

/-!
# Lambda: term model, reduction engine and parser

A shallow embedding of `lambda.h` / `lambda.cc` (the three-variant term type,
`replace` with its decorated-name alpha-conversion scheme, beta application, the
two single-step reducers, the bounded driver and the primitive library) and of
`parser.h` / `parser.cc` (the lexer over a character stream and the backtracking
recursive-descent parser with its symbol table).
-/

namespace Lambda

/-- The three variants of `Expression`: `Name`, `Function`, `Application`.
A `NameP` is represented by the identifier string it holds, since names are
only ever compared through their strings. -/
inductive Expression where
  | Name (m_name : String)
  | Function (m_vbound : String) (m_body : Expression)
  | Application (m_func : Expression) (m_arg : Expression)
  deriving DecidableEq, Repr

namespace Expression

/-- Number of nodes of a term; a `Name` counts for one. -/
def size : Expression → Nat
  | Name _ => 1
  | Function _ b => b.size + 1
  | Application f a => f.size + a.size + 1

/-- The test `p && *p == *m_vbound` of `Function::replace`, where
`p = dynamic_pointer_cast<Name>(expr)`. -/
def collides (expr : Expression) (vbound : String) : Bool :=
  match expr with
  | Name p => p == vbound
  | _ => false

/-- The rank used, after the size, to see that `Function::replace` terminates:
one when the alpha-conversion branch is about to be taken. -/
def alphaRank (expr : Expression) : Expression → Nat
  | Function v _ => if collides expr v then 1 else 0
  | _ => 0

/-- The virtual method `replace(name, expr)` on the receiver `t`, together with
the fact that a `Name` replacement leaves the size of the term unchanged (which
is what makes the retry after `Aconvert` well founded).

* `Name::replace`: `(true, expr)` when the identifiers agree, else a fresh copy.
* `Function::replace`: when `expr` is a `Name` equal to the bound variable,
  `Aconvert(Name::create("^" + m_vbound->name()))->replace(name, expr)`;
  otherwise unchanged when `name` is the bound variable, else recurse in the body.
* `Application::replace`: both sides, flags or-ed. -/
def replaceSized (name : String) (expr : Expression) (t : Expression) :
    { p : Bool × Expression // expr.size = 1 → p.2.size = t.size } :=
  match t with
  | Name m_name =>
      if name = m_name then ⟨(true, expr), fun h => by simpa [size] using h⟩
      else ⟨(false, Name m_name), fun _ => rfl⟩
  | Function m_vbound m_body =>
      if hc : collides expr m_vbound = true then
        -- Aconvert: auto p = m_body->replace(m_vbound, name); create(name, p.second)
        let p := replaceSized m_vbound (Name ("^" ++ m_vbound)) m_body
        have hp : p.1.2.size = m_body.size := p.2 rfl
        have : (Function ("^" ++ m_vbound) p.1.2).size = (Function m_vbound m_body).size := by
          simp [size, hp]
        have : alphaRank expr (Function ("^" ++ m_vbound) p.1.2) <
            alphaRank expr (Function m_vbound m_body) := by
          cases expr with
          | Name q =>
            have hq : q = m_vbound := by simpa [collides] using hc
            have hne : ¬ (q = "^" ++ m_vbound) := by
              intro h
              have hl := congrArg String.length h
              rw [String.length_append, hq] at hl
              have h1 : "^".length = 1 := by decide
              omega
            simp [alphaRank, collides, hq, hne, hq ▸ hne]
          | Function _ _ => simp [collides] at hc
          | Application _ _ => simp [collides] at hc
        let r := replaceSized name expr (Function ("^" ++ m_vbound) p.1.2)
        ⟨r.1, fun h => by rw [r.2 h]; simp [size, hp]⟩
      else if name = m_vbound then
        ⟨(false, Function m_vbound m_body), fun _ => rfl⟩
      else
        let q := replaceSized name expr m_body
        ⟨(q.1.1, Function m_vbound q.1.2), fun h => by simp [size, q.2 h]⟩
  | Application m_func m_arg =>
      let p := replaceSized name expr m_func
      let q := replaceSized name expr m_arg
      ⟨(p.1.1 || q.1.1, Application p.1.2 q.1.2), fun h => by simp [size, p.2 h, q.2 h]⟩
termination_by (t.size, alphaRank expr t)
decreasing_by
  · apply Prod.Lex.left; simp [size]
  · rw [Prod.lex_def]; right; exact ⟨by assumption, by assumption⟩
  · apply Prod.Lex.left; simp [size]
  · apply Prod.Lex.left; simp only [size]; omega
  · apply Prod.Lex.left; simp only [size]; omega

/-- The call `t->replace(name, expr)`: the pair `(changed, result)`. -/
def replace (name : String) (expr : Expression) (t : Expression) : Bool × Expression :=
  (replaceSized name expr t).1

/-- The method `Function::Aconvert(name)` on the abstraction with bound variable `m_vbound`
and body `m_body`: rename the bound variable to `name`. -/
def Aconvert (m_vbound : String) (m_body : Expression) (name : String) : Expression :=
  let p := replace m_vbound (Name name) m_body
  Function name p.2

/-- The method `Function::Breduce(expr)`: the result term of substituting `expr` for the
bound variable in the body. -/
def Breduce (m_vbound : String) (m_body : Expression) (expr : Expression) : Expression :=
  let p := replace m_vbound expr m_body
  p.2

/-- The method `Application::apply()`: beta-reduce when the function side is a `Function`,
otherwise `nullptr` (here `none`). -/
def apply (m_func m_arg : Expression) : Option Expression :=
  match m_func with
  | Function v b => some (Breduce v b m_arg)
  | _ => none

/-- The three `print` methods (`Name::print`, `Function::print`,
`Application::print`), returning the text written to the stream. -/
def print : Expression → String
  | Name m_name => m_name
  | Function m_vbound m_body => "λ" ++ m_vbound ++ "." ++ print m_body
  | Application m_func m_arg => "(" ++ print m_func ++ " " ++ print m_arg ++ ")"

end Expression

open Expression

/-- The function `Nreduce1`: one normal-order step, `none` standing for `nullptr`. -/
def Nreduce1 : Expression → Option Expression
  | Application func arg =>
      match Expression.apply func arg with
      | some reduced => some reduced
      | none =>
        match Nreduce1 func with
        | some new_func => some (Application new_func arg)
        | none =>
          match Nreduce1 arg with
          | some new_arg => some (Application func new_arg)
          | none => none
  | Function vbound body =>
      match Nreduce1 body with
      | some new_body => some (Function vbound new_body)
      | none => none
  | Name _ => none

/-- The function `Areduce1`: one step of the strategy used by `reduce`. As in the source, every
recursive position calls `Nreduce1`. -/
def Areduce1 : Expression → Option Expression
  | Application func arg =>
      match Nreduce1 arg with
      | some new_arg => some (Application func new_arg)
      | none =>
        match Expression.apply func arg with
        | some reduced => some reduced
        | none =>
          match Nreduce1 func with
          | some new_func => some (Application new_func arg)
          | none => none
  | Function vbound body =>
      match Nreduce1 body with
      | some new_body => some (Function vbound new_body)
      | none => none
  | Name _ => none

/-- The constant `const unsigned MAX_REDUCE_STEPS = 1024;`. -/
def MAX_REDUCE_STEPS : Nat := 1024

/-- The exception thrown by `reduce`. -/
inductive ReduceError where
  | TooManyStepsError
  deriving DecidableEq, Repr

/-- The loop `for (auto i = ...; i > 0; ++i)` of `reduce`, entered with counter
`i` and current term `result`. The counter is an `unsigned` (32 bits), so it is
read modulo `2 ^ 32` and `++i` wraps around. Leaving the loop through its
condition reaches `throw TooManyStepsError{}`. -/
def reduceLoop (i : Nat) (result : Expression) : Except ReduceError Expression :=
  if 0 < i % 2 ^ 32 then
    match Areduce1 result with
    | none => Except.ok result
    | some interm => reduceLoop ((i + 1) % 2 ^ 32) interm
  else
    Except.error ReduceError.TooManyStepsError
termination_by (2 ^ 32 - i % 2 ^ 32) % 2 ^ 32
decreasing_by
  simp_wf
  omega

/-- The driver `reduce(expr)`: the loop entered with `i = MAX_REDUCE_STEPS` and
`result = expr`. -/
def reduce (expr : Expression) : Except ReduceError Expression :=
  reduceLoop MAX_REDUCE_STEPS expr

namespace Expression

/-- Whether `n` occurs in `t`, as a `Name` or as the bound variable of an abstraction. -/
def occurs (n : String) : Expression → Bool
  | Name m => n == m
  | Function v b => n == v || occurs n b
  | Application f a => occurs n f || occurs n a

/-- Whether `n` has a free occurrence in `t`: a `Name n` not under a binder named `n`. -/
def isFree (n : String) : Expression → Bool
  | Name m => n == m
  | Function v b => !(n == v) && isFree n b
  | Application f a => isFree n f || isFree n a

/-- Whether `v` is the bound variable of some abstraction inside `t`. -/
def hasBinder (v : String) : Expression → Bool
  | Name _ => false
  | Function w b => v == w || hasBinder v b
  | Application f a => hasBinder v f || hasBinder v a

/-- Whether `dynamic_pointer_cast<Name>(expr)` succeeds. -/
def isName : Expression → Bool
  | Name _ => true
  | _ => false

/-- Whether `expr` is a `Name` equal to the bound variable of some abstraction of `t`:
the replacements for which the alpha-conversion branch can be taken inside `t`. -/
def collidesIn (expr : Expression) (t : Expression) : Bool :=
  match expr with
  | Name p => hasBinder p t
  | _ => false

/-- Number of free occurrences of `x` in `t`. -/
def freeCount (x : String) : Expression → Nat
  | Name m => if x = m then 1 else 0
  | Function w b => if x = w then 0 else freeCount x b
  | Application f a => freeCount x f + freeCount x a

/-- No abstraction of `t` bound to `v` has the decorated name `"^" ++ v`
anywhere in its body (as a `Name` or as a binder). -/
def scopeClean (v : String) : Expression → Bool
  | Name _ => true
  | Function w c => (!(w == v) || !(occurs ("^" ++ v) c)) && scopeClean v c
  | Application f a => scopeClean v f && scopeClean v a

/-- Naive substitution, following the wording of the contract of `replace`
without its capture-hazard clause: a `Name` equal to the target becomes the
replacement; an application substitutes in both sides and or-s the flags; an
abstraction whose bound variable shadows the target is returned unchanged with
flag false; otherwise the body is substituted and re-wrapped under the same
bound variable. -/
def substNaive (target : String) (replacement : Expression) : Expression → Bool × Expression
  | Name m => if target = m then (true, replacement) else (false, Name m)
  | Function v b =>
      if target = v then (false, Function v b)
      else ((substNaive target replacement b).1, Function v (substNaive target replacement b).2)
  | Application f a =>
      ((substNaive target replacement f).1 || (substNaive target replacement a).1,
        Application (substNaive target replacement f).2 (substNaive target replacement a).2)

end Expression

/-- The result of `n` consecutive calls of `Areduce1`, each fed the previous result; `none`
as soon as one of them finds no redex. -/
def AreduceN : Nat → Expression → Option Expression
  | 0, t => some t
  | n + 1, t =>
      match Areduce1 t with
      | some u => AreduceN n u
      | none => none

/-- The term `(λx.x (λx.x ( ... (λx.x z))))` with `n` applications of the
identity, as built by `Application::create` and `Expressions::zero`. -/
def idChain : Nat → Expression
  | 0 => Name "z"
  | n + 1 => Application (Function "x" (Name "x")) (idChain n)

/-- The self-application term `((λx.(x x)) (λx.(x x)))`. -/
def selfApp : Expression :=
  Application
    (Function "x" (Application (Name "x") (Name "x")))
    (Function "x" (Application (Name "x") (Name "x")))

/-! ### The primitive library (`namespace Expressions` of `lambda.h`) -/

namespace Expressions

/-- The term `λx.x`. -/
def zero : Expression := Function "x" (Name "x")

/-- The term `λx.λy.x`. -/
def select_first : Expression := Function "x" (Function "y" (Name "x"))

/-- The term `λx.λy.y`. -/
def select_second : Expression := Function "x" (Function "y" (Name "y"))

/-- The constant `true_func`, an alias of `select_first`. -/
def true_func : Expression := select_first

/-- The constant `false_func`, an alias of `select_second`. -/
def false_func : Expression := select_second

/-- The term `λe1.λe2.λc.((c e1) e2)`. -/
def cond : Expression :=
  Function "e1" (Function "e2" (Function "c"
    (Application (Application (Name "c") (Name "e1")) (Name "e2"))))

/-- The constant `make_pair`, an alias of `cond`. -/
def make_pair : Expression := cond

/-- The term `λn.(n select_first)`. -/
def iszero : Expression := Function "n" (Application (Name "n") select_first)

/-- The term `λn.λs.((s false) n)`. -/
def succ : Expression :=
  Function "n" (Function "s" (Application (Application (Name "s") false_func) (Name "n")))

/-- The term `(succ zero)`. -/
def one : Expression := Application succ zero

/-- The term `λn.(((cond (iszero n)) zero) (n select_second))`. -/
def pred : Expression :=
  Function "n"
    (Application
      (Application (Application cond (Application iszero (Name "n"))) zero)
      (Application (Name "n") select_second))

/-- The term `λs.(f (s s))`. -/
def rec1 : Expression :=
  Function "s" (Application (Name "f") (Application (Name "s") (Name "s")))

/-- The term `λf.(rec1 rec1)`. -/
def recursive : Expression := Function "f" (Application rec1 rec1)

/-- The term `λf.λx.λy.(((cond y) ((f (pred x)) (succ y))) (iszero x))`. -/
def add1 : Expression :=
  Function "f" (Function "x" (Function "y"
    (Application
      (Application
        (Application cond (Name "y"))
        (Application
          (Application (Name "f") (Application pred (Name "x")))
          (Application succ (Name "y"))))
      (Application iszero (Name "x")))))

/-- The term `(recursive add1)`. -/
def add : Expression := Application recursive add1

/-- The term `λf.λx.λy.(((cond x) ((f (pred x)) (pred y))) (iszero y))`. -/
def sub1 : Expression :=
  Function "f" (Function "x" (Function "y"
    (Application
      (Application
        (Application cond (Name "x"))
        (Application
          (Application (Name "f") (Application pred (Name "x")))
          (Application pred (Name "y"))))
      (Application iszero (Name "y")))))

/-- The term `(recursive sub1)`. -/
def sub : Expression := Application recursive sub1

/-- The term `λx.λy.((add ((sub x) y)) ((sub y) x))`. -/
def abs_diff : Expression :=
  Function "x" (Function "y"
    (Application
      (Application add (Application (Application sub (Name "x")) (Name "y")))
      (Application (Application sub (Name "y")) (Name "x"))))

/-- The term `λx.λy.(iszero ((abs_diff x) y))`. -/
def equal : Expression :=
  Function "x" (Function "y"
    (Application iszero (Application (Application abs_diff (Name "x")) (Name "y"))))

/-- The constant `make_obj`, an alias of `make_pair`. -/
def make_obj : Expression := make_pair

/-- The term `λobj.(obj select_first)`. -/
def type_func : Expression := Function "obj" (Application (Name "obj") select_first)

/-- The term `λobj.(obj select_second)`. -/
def value_func : Expression := Function "obj" (Application (Name "obj") select_second)

/-- The term `λt.λobj.((equal t) (type_func obj))`. -/
def istype : Expression :=
  Function "t" (Function "obj"
    (Application (Application equal (Name "t")) (Application type_func (Name "obj"))))

/-- The constant `error_type`, an alias of `zero`. -/
def error_type : Expression := zero

/-- The term `(make_obj error_type)`. -/
def make_error : Expression := Application make_obj error_type

/-- The constant `bool_type`, an alias of `one`. -/
def bool_type : Expression := one

/-- The term `λx.((istype bool_type) x)`. -/
def isbool : Expression :=
  Function "x" (Application (Application istype bool_type) (Name "x"))

/-- The term `(make_error bool_type)`. -/
def bool_error : Expression := Application make_error bool_type

/-- The term `λE1.λE2.λC.(((cond (((cond E1) E2) (value_func C))) bool_error) (isbool C))`. -/
def typed_cond : Expression :=
  Function "E1" (Function "E2" (Function "C"
    (Application
      (Application
        (Application cond
          (Application
            (Application (Application cond (Name "E1")) (Name "E2"))
            (Application value_func (Name "C"))))
        bool_error)
      (Application isbool (Name "C")))))

end Expressions

/-- The result of `n` consecutive calls of `Nreduce1`, each fed the previous
result; `none` as soon as one of them finds no redex. -/
def NreduceN : Nat → Expression → Option Expression
  | 0, t => some t
  | n + 1, t =>
      match Nreduce1 t with
      | some u => NreduceN n u
      | none => none

/-- The numeral built by `parseInt` for `n`: `n` applications of `succ` to `zero`. -/
def numeral : Nat → Expression
  | 0 => Expressions.zero
  | n + 1 => Application Expressions.succ (numeral n)

namespace Expression

/-- The names with a free occurrence in `t`, in order of occurrence. -/
def freeNames : Expression → List String
  | Name m => [m]
  | Function v b => (freeNames b).filter (fun n => !(n == v))
  | Application f a => freeNames f ++ freeNames a

/-- Whether `t` is closed: no name occurs free in it. -/
def isClosed (t : Expression) : Bool := (freeNames t).isEmpty

end Expression

/-! ### The lexer and the parser (`parser.h`, `parser.cc`) -/

namespace Parser

/-- The enumeration `Token::Type`. -/
inductive TokenType where
  | INVALID | LAMBDA | DOT | L_PAREN | R_PAREN | DEF | REC | EQUALS | OBJECT
  | INTLITERAL | IF | THEN | ELSE | IF_TYPED | THEN_TYPED | ELSE_TYPED
  deriving DecidableEq, Repr

/-- The struct `Token`: a type and the matched text (a `std::wstring`). -/
structure Token where
  type : TokenType
  val : List Char
  deriving DecidableEq, Repr

/-- The default constructor `Token()`: type `INVALID`, empty text. -/
def Token.invalid : Token := ⟨TokenType.INVALID, []⟩

/-- The enumeration `ParentPos`. -/
inductive ParentPos where
  | EXPRESSION | APPLICATION_EXPR
  deriving DecidableEq, Repr

/-- The type `symbol_table`: name to (term, arity). A `std::map` is represented
by an association list read with `List.lookup`. -/
abbrev SymbolTable := List (String × (Expression × Nat))

/-- The assignment `table[name] = value` of `std::map`: the entry for `name` is
replaced or created, every other entry is kept. -/
def SymbolTable.assign (table : SymbolTable) (name : String) (value : Expression × Nat) :
    SymbolTable :=
  (name, value) :: table.filter (fun e => !(e.1 == name))

/-- The struct `ParseContext`: the symbol table in use and the parent position. -/
structure ParseContext where
  syms : SymbolTable
  ppos : ParentPos
  deriving DecidableEq, Repr

/-- The state bits `rdstate()` of a stream that this program can set. -/
structure Flags where
  eofbit : Bool
  failbit : Bool
  deriving DecidableEq, Repr

/-- A `std::wistream` over a string buffer that is only read. The get position
is represented by the characters that remain to be read from it, so that
`tellg` hands out that suffix and `seekg` puts it back. The `skipws` format flag
is not part of the state: `operator>>(wistream&, Token&)` always leaves it set. -/
structure WIStream where
  rest : List Char
  eofbit : Bool
  failbit : Bool
  deriving DecidableEq, Repr

namespace WIStream

/-- The member `good()`: no state bit is set. -/
def good (is : WIStream) : Bool := !is.eofbit && !is.failbit

/-- The member `fail()`. -/
def fail (is : WIStream) : Bool := is.failbit

/-- The member `eof()`. -/
def eof (is : WIStream) : Bool := is.eofbit

/-- The member `rdstate()`. -/
def rdstate (is : WIStream) : Flags := ⟨is.eofbit, is.failbit⟩

/-- The member `setstate(flags)`: the given bits are added to the state, none is
ever removed. -/
def setstate (is : WIStream) (flags : Flags) : WIStream :=
  { is with eofbit := is.eofbit || flags.eofbit, failbit := is.failbit || flags.failbit }

/-- The member `tellg()`: its sentry sets `failbit` on a stream that is not good,
and the position is `-1` (here `none`) whenever the stream has failed. -/
def tellg (is : WIStream) : WIStream × Option (List Char) :=
  if is.good then (is, some is.rest) else ({ is with failbit := true }, none)

/-- The member `seekg(pos)`: clears `eofbit`, then its sentry sets `failbit` when
the stream is still not good and nothing is moved; seeking to `-1` fails. -/
def seekg (is : WIStream) (pos : Option (List Char)) : WIStream :=
  if is.failbit then { is with eofbit := false, failbit := true }
  else
    match pos with
    | none => { is with eofbit := false, failbit := true }
    | some r => { rest := r, eofbit := false, failbit := false }

end WIStream

/-- The whitespace skipped by a formatted extraction in the classic locale. -/
def isspace (c : Char) : Bool :=
  c == ' ' || c == '\t' || c == '\n' || c == Char.ofNat 11 || c == Char.ofNat 12 || c == '\r'

/-- The call `isalnum(c)`, for the classic locale. -/
def isalnum (c : Char) : Bool := c.isAlphanum

/-- The call `isdigit(c)`. -/
def isdigit (c : Char) : Bool := c.isDigit

/-- The extraction `is >> c` of one character, with the `skipws` flag as given:
on a stream that is not good the sentry sets `failbit`; reaching the end of the
buffer sets `eofbit` and `failbit`. -/
def getChar (skipws : Bool) (is : WIStream) : WIStream × Option Char :=
  if is.good then
    match (if skipws then is.rest.dropWhile isspace else is.rest) with
    | [] => ({ rest := [], eofbit := true, failbit := true }, none)
    | c :: r => ({ is with rest := r }, some c)
  else ({ is with failbit := true }, none)

/-- The `while (!is.fail())` loop of `operator>>(wistream&, Token&)`, entered with
the character `c` just extracted, the `word` gathered so far and the characters
`rest` that remain. A character that is neither alphanumeric nor an underscore is
put back and ends the loop; otherwise it joins the word and the next character
is extracted without skipping whitespace, which ends the loop at the end of the
buffer. Returns the word and what remains to be read. -/
def wordLoop (c : Char) (word : List Char) (rest : List Char) : List Char × List Char :=
  if !isalnum c && c != '_' then (word, c :: rest)
  else
    match rest with
    | [] => (word ++ [c], [])
    | c2 :: rest2 => wordLoop c2 (word ++ [c]) rest2

/-- The classification of a word at the end of `operator>>(wistream&, Token&)`. -/
def classify (word : List Char) : TokenType :=
  if word = "def".data then TokenType.DEF
  else if word = "rec".data then TokenType.REC
  else if word = "if".data then TokenType.IF
  else if word = "then".data then TokenType.THEN
  else if word = "else".data then TokenType.ELSE
  else if word = "IF".data then TokenType.IF_TYPED
  else if word = "THEN".data then TokenType.THEN_TYPED
  else if word = "ELSE".data then TokenType.ELSE_TYPED
  else if word.all isdigit then TokenType.INTLITERAL
  else TokenType.OBJECT

/-- The extraction `is >> token` (`operator>>(std::wistream&, Token&)`). The
token is left as it was when the stream is not good or the first character
cannot be extracted. After a word the state is cleared. The literal compared
first is the letter `λ`. -/
def readToken (is : WIStream) (token : Token) : WIStream × Token :=
  if is.good then
    match getChar true is with
    | (is1, none) => (is1, token)
    | (is1, some c) =>
      if c = 'λ' then (is1, ⟨TokenType.LAMBDA, [c]⟩)
      else if c = '.' then (is1, ⟨TokenType.DOT, [c]⟩)
      else if c = '(' then (is1, ⟨TokenType.L_PAREN, [c]⟩)
      else if c = ')' then (is1, ⟨TokenType.R_PAREN, [c]⟩)
      else if c = '=' then (is1, ⟨TokenType.EQUALS, [c]⟩)
      else
        let p := wordLoop c [] is1.rest
        ({ rest := p.2, eofbit := false, failbit := false }, ⟨classify p.1, p.1⟩)
  else (is, token)

/-- The conversion `s_convert.to_bytes(tok.val)`. -/
def to_bytes (val : List Char) : String := String.mk val

/-- The value of a string of decimal digits. -/
def decimalValue (digits : List Char) : Nat :=
  digits.foldl (fun acc d => 10 * acc + (d.toNat - '0'.toNat)) 0

/-- The extraction `wstringstream(tok.val) >> num` into the local `unsigned num`,
which is declared without initialiser. On a text that holds nothing after its
leading whitespace the sentry of the extraction fails and nothing is stored:
`num` keeps its indeterminate value, which is `none` here. Otherwise the leading
digits are read; without any digit the result is 0, and a value that does not
fit 32 bits gives the largest `unsigned`. (A word of the lexer holds no sign.) -/
def extractUnsigned (val : List Char) : Option Nat :=
  if val.dropWhile isspace = [] then none
  else if decimalValue ((val.dropWhile isspace).takeWhile isdigit) < 2 ^ 32 then
    some (decimalValue ((val.dropWhile isspace).takeWhile isdigit))
  else some (2 ^ 32 - 1)

/-- The loop `for(; num > 0; --num) result = Application::create(succ, result)`. -/
def intLoop : Nat → Expression → Expression
  | 0, result => result
  | num + 1, result => intLoop num (Application Expressions.succ result)

/-- What a parsing function leaves and returns: the stream, and the pair
`(bool, pointer)`, with `none` for `(false, nullptr)`. -/
abbrev ParseResult := WIStream × Option Expression

/-- A parsing function of the model. It gives `none` when it runs out of fuel,
and when the source reads the uninitialised `num` of `parseInt`, for which the
language defines no result. -/
abbrev ParseFun := ParseContext → WIStream → Option ParseResult

/-- The rewinding `m_tokens.setstate(flags); m_tokens.seekg(startpos);`. -/
def rewind (is : WIStream) (flags : Flags) (startpos : Option (List Char)) : WIStream :=
  (is.setstate flags).seekg startpos

/-- The method `ExpressionBuilder::parseInt`. An `INTLITERAL` token is accepted
whatever its text; the result is `none` when the count of the loop is the
uninitialised `num` (the extraction stored nothing). -/
def parseInt (is : WIStream) : Option ParseResult :=
  let t := is.tellg
  let flags := t.1.rdstate
  if t.1.good && t.2.isSome then
    let r := readToken t.1 Token.invalid
    if !r.1.fail && r.2.type = TokenType.INTLITERAL then
      match extractUnsigned r.2.val with
      | none => none
      | some num => some (r.1, some (intLoop num Expressions.zero))
    else some (rewind r.1 flags t.2, none)
  else some (t.1, none)

/-- The specialization `parse<Name>`. -/
def parseName (is : WIStream) : ParseResult :=
  let t := is.tellg
  let flags := t.1.rdstate
  if t.1.good && t.2.isSome then
    let r := readToken t.1 Token.invalid
    if !r.1.fail && r.2.type = TokenType.OBJECT then
      (r.1, some (Name (to_bytes r.2.val)))
    else (rewind r.1 flags t.2, none)
  else (t.1, none)

/-- The `for(auto nlevel = nargs-1; true; --nlevel)` loop of
`parseImplicitApplication`, entered with the counter `nlevel` and the
application `result` built so far; `pe` is `parse<Expression>`. It returns
`some` application when the loop returns, and `none` when it breaks. -/
def implicitLoop (pe : ParseFun) (ctx : ParseContext) :
    Nat → Expression → WIStream → Option ParseResult
  | 0, result, is =>
    match pe ⟨ctx.syms, ParentPos.EXPRESSION⟩ is with
    | none => none
    | some (is1, none) => some (is1, none)
    | some (is1, some p) =>
      let t := is1.tellg
      let flags := t.1.rdstate
      let r := readToken t.1 Token.invalid
      if ctx.ppos ≠ ParentPos.APPLICATION_EXPR ∨ r.2.type ≠ TokenType.R_PAREN then
        some (rewind r.1 flags t.2, some (Application result p))
      else some (r.1, none)
  | nlevel + 1, result, is =>
    match pe ⟨ctx.syms, ParentPos.EXPRESSION⟩ is with
    | none => none
    | some (is1, none) => some (is1, none)
    | some (is1, some p) => implicitLoop pe ctx nlevel (Application result p) is1

/-- The method `ExpressionBuilder::parseImplicitApplication`. -/
def parseImplicitApplication (pe : ParseFun) (func : Expression × Nat) (ctx : ParseContext)
    (is : WIStream) : Option ParseResult :=
  let t := is.tellg
  let flags := t.1.rdstate
  if 1 ≤ func.2 then
    match implicitLoop pe ctx (func.2 - 1) func.1 t.1 with
    | none => none
    | some (is1, some app) => some (is1, some app)
    | some (is1, none) => some (rewind is1 flags t.2, none)
  else some (rewind t.1 flags t.2, none)

/-- The method `ExpressionBuilder::substitute`. -/
def substitute (pe : ParseFun) (ctx : ParseContext) (is : WIStream) : Option ParseResult :=
  let t := is.tellg
  let flags := t.1.rdstate
  if t.1.good && t.2.isSome then
    let r := readToken t.1 Token.invalid
    if !r.1.fail && r.2.type = TokenType.OBJECT then
      match ctx.syms.lookup (to_bytes r.2.val) with
      | some it =>
        match parseImplicitApplication pe it ctx r.1 with
        | none => none
        | some (is1, some app) => some (is1, some app)
        | some (is1, none) => some (is1, some it.1)
      | none => some (rewind r.1 flags t.2, none)
    else some (rewind r.1 flags t.2, none)
  else some (t.1, none)

/-- The specialization `parse<Function>`, with `pf` for its own recursive call
and `pe` for `parse<Expression>`. -/
def parseFunctionStep (pf pe : ParseFun) (ctx : ParseContext) (is : WIStream) :
    Option ParseResult :=
  let t := is.tellg
  let flags := t.1.rdstate
  if t.1.good && t.2.isSome then
    let r1 := readToken t.1 Token.invalid
    if r1.1.good && r1.2.type = TokenType.LAMBDA then
      let r2 := readToken r1.1 r1.2
      if r2.1.good && r2.2.type = TokenType.OBJECT then
        let name := to_bytes r2.2.val
        let r3 := readToken r2.1 r2.2
        if r3.1.good && r3.2.type = TokenType.DOT then
          match pf ⟨ctx.syms, ParentPos.EXPRESSION⟩ r3.1 with
          | none => none
          | some (is1, some q) => some (is1, some (Function name q))
          | some (is1, none) =>
            match pe ⟨ctx.syms, ParentPos.EXPRESSION⟩ is1 with
            | none => none
            | some (is2, some r) => some (is2, some (Function name r))
            | some (is2, none) => some (rewind is2 flags t.2, none)
        else some (rewind r3.1 flags t.2, none)
      else some (rewind r2.1 flags t.2, none)
    else some (rewind r1.1 flags t.2, none)
  else some (t.1, none)

/-- The specialization `parse<Application>`, with `pe` for `parse<Expression>`. -/
def parseApplication (pe : ParseFun) (ctx : ParseContext) (is : WIStream) :
    Option ParseResult :=
  let t := is.tellg
  let flags := t.1.rdstate
  if t.1.good && t.2.isSome then
    let r1 := readToken t.1 Token.invalid
    if r1.1.good && r1.2.type = TokenType.L_PAREN then
      match pe ⟨ctx.syms, ParentPos.APPLICATION_EXPR⟩ r1.1 with
      | none => none
      | some (is1, none) => some (rewind is1 flags t.2, none)
      | some (is1, some p) =>
        match pe ctx is1 with
        | none => none
        | some (is2, none) => some (rewind is2 flags t.2, none)
        | some (is2, some q) =>
          if is2.good then
            let r2 := readToken is2 r1.2
            if !r2.1.fail && r2.2.type = TokenType.R_PAREN then
              some (r2.1, some (Application p q))
            else some (rewind r2.1 flags t.2, none)
          else some (rewind is2 flags t.2, none)
    else some (rewind r1.1 flags t.2, none)
  else some (t.1, none)

/-- The common body of `parseIfThenElse` and `parseTypedIfThenElse`, which
differ by their three keywords and by the conditional they apply: the term
built is `(((conditional then_expr) else_expr) pred)`. -/
def parseConditional (kwIf kwThen kwElse : TokenType) (conditional : Expression)
    (pe : ParseFun) (ctx : ParseContext) (is : WIStream) : Option ParseResult :=
  let t := is.tellg
  let flags := t.1.rdstate
  if t.1.good && t.2.isSome then
    let r1 := readToken t.1 Token.invalid
    if r1.1.good && r1.2.type = kwIf then
      match pe ⟨ctx.syms, ParentPos.EXPRESSION⟩ r1.1 with
      | none => none
      | some (is1, none) => some (rewind is1 flags t.2, none)
      | some (is1, some pred) =>
        if is1.good then
          let r2 := readToken is1 r1.2
          if r2.1.good && r2.2.type = kwThen then
            match pe ⟨ctx.syms, ParentPos.EXPRESSION⟩ r2.1 with
            | none => none
            | some (is2, none) => some (rewind is2 flags t.2, none)
            | some (is2, some then_expr) =>
              if is2.good then
                let r3 := readToken is2 r2.2
                if r3.1.good && r3.2.type = kwElse then
                  match pe ⟨ctx.syms, ParentPos.EXPRESSION⟩ r3.1 with
                  | none => none
                  | some (is3, none) => some (rewind is3 flags t.2, none)
                  | some (is3, some else_expr) =>
                    some (is3, some (Application
                      (Application (Application conditional then_expr) else_expr) pred))
                else some (rewind r3.1 flags t.2, none)
              else some (rewind is2 flags t.2, none)
          else some (rewind r2.1 flags t.2, none)
        else some (rewind is1 flags t.2, none)
    else some (rewind r1.1 flags t.2, none)
  else some (rewind t.1 flags t.2, none)

/-- The method `ExpressionBuilder::parseIfThenElse`. -/
def parseIfThenElse (pe : ParseFun) (ctx : ParseContext) (is : WIStream) : Option ParseResult :=
  parseConditional TokenType.IF TokenType.THEN TokenType.ELSE Expressions.cond pe ctx is

/-- The method `ExpressionBuilder::parseTypedIfThenElse`. -/
def parseTypedIfThenElse (pe : ParseFun) (ctx : ParseContext) (is : WIStream) :
    Option ParseResult :=
  parseConditional TokenType.IF_TYPED TokenType.THEN_TYPED TokenType.ELSE_TYPED
    Expressions.typed_cond pe ctx is

/-- The specialization `parse<Expression>`: the alternatives in order, each tried
on the stream as the previous one left it; `pf` is `parse<Function>` and `pe` its
own recursive call. -/
def parseExpressionStep (pf pe : ParseFun) (ctx : ParseContext) (is : WIStream) :
    Option ParseResult :=
  match parseIfThenElse pe ctx is with
  | none => none
  | some (is1, some e) => some (is1, some e)
  | some (is1, none) =>
  match parseTypedIfThenElse pe ctx is1 with
  | none => none
  | some (is2, some e) => some (is2, some e)
  | some (is2, none) =>
  match parseInt is2 with
  | none => none
  | some (is3, some e) => some (is3, some e)
  | some (is3, none) =>
  match substitute pe ctx is3 with
  | none => none
  | some (is4, some e) => some (is4, some e)
  | some (is4, none) =>
  match parseName is4 with
  | (is5, some e) => some (is5, some e)
  | (is5, none) =>
  match parseFunctionStep pf pe ctx is5 with
  | none => none
  | some (is6, some e) => some (is6, some e)
  | some (is6, none) =>
  match parseApplication pe ctx is6 with
  | none => none
  | some (is7, some e) => some (is7, some e)
  | some (is7, none) => some (is7, none)

/-- The mutually recursive `parse<Function>` and `parse<Expression>` with a bound
`fuel` on the depth of the calls; without fuel both give `none`. -/
def parsers : Nat → ParseFun × ParseFun
  | 0 => (fun _ _ => none, fun _ _ => none)
  | fuel + 1 =>
    (parseFunctionStep (parsers fuel).1 (parsers fuel).2,
      parseExpressionStep (parsers fuel).1 (parsers fuel).2)

/-- The specialization `parse<Function>` at call depth at most `fuel`. -/
def parseFunction (fuel : Nat) : ParseFun := (parsers fuel).1

/-- The specialization `parse<Expression>` at call depth at most `fuel`. -/
def parseExpression (fuel : Nat) : ParseFun := (parsers fuel).2

/-- The members of `ExpressionBuilder` that change: the stream `m_tokens` and
the session symbol table behind `m_syms`. -/
structure ExpressionBuilder where
  m_tokens : WIStream
  m_syms : SymbolTable
  deriving DecidableEq, Repr

/-- The loop `while (m_tokens.good() && tok.type == OBJECT)` of `parse1`, which
gathers the parameter names; `none` when `fuel` iterations were not enough. -/
def paramLoop : Nat → WIStream → Token → List String → Option (WIStream × Token × List String)
  | 0, _, _, _ => none
  | fuel + 1, is, tok, varq =>
    if is.good && tok.type = TokenType.OBJECT then
      let r := readToken is tok
      paramLoop fuel r.1 r.2 (varq ++ [to_bytes tok.val])
    else some (is, tok, varq)

/-- The name `self^` of the placeholder bound to a definition while its body is
parsed. -/
def selfName : String := "self^"

/-- The method `ExpressionBuilder::parse1`. A `throw runtime_error(msg)` is
`Except.error msg`; the builder is returned in both cases. The result is `none`
when `fuel` was not enough for the parameter loop or for `parse<Expression>`, and
when `parse<Expression>` has no defined result. -/
def parse1 (fuel : Nat) (eb : ExpressionBuilder) :
    Option (Except String (String × Option Expression) × ExpressionBuilder) :=
  let t := eb.m_tokens.tellg
  let flags := t.1.rdstate
  if t.1.eof || t.2.isNone then some (Except.ok ("_", none), { eb with m_tokens := t.1 })
  else if !t.1.good || t.2.isNone then
    some (Except.error "Could not parse", { eb with m_tokens := t.1 })
  else
    let r1 := readToken t.1 Token.invalid
    if r1.1.eof then some (Except.ok ("_", none), { eb with m_tokens := r1.1 })
    else
      let isRec := decide (r1.2.type = TokenType.REC)
      if r1.1.good && (r1.2.type = TokenType.DEF || isRec) then
        let r2 := readToken r1.1 r1.2
        if r2.1.good && r2.2.type = TokenType.OBJECT then
          let name := to_bytes r2.2.val
          if (eb.m_syms.lookup name).isSome then
            some (Except.error ("Redefinition of symbol \"" ++ name ++ "\""),
              { eb with m_tokens := r2.1 })
          else
            let r3 := readToken r2.1 r2.2
            match paramLoop fuel r3.1 r3.2 [] with
            | none => none
            | some (is4, tok4, varq) =>
              if is4.good && tok4.type = TokenType.EQUALS then
                let s2 := eb.m_syms.assign name (Name selfName, varq.length)
                match parseExpression fuel ⟨s2, ParentPos.EXPRESSION⟩ is4 with
                | none => none
                | some (is5, none) =>
                  some (Except.error "Could not parse", { eb with m_tokens := is5 })
                | some (is5, some p) =>
                  let q := varq.foldr Function p
                  let q2 :=
                    if isRec then
                      Application Expressions.recursive (Function selfName q)
                    else q
                  some (Except.ok (name, some q2),
                    { m_tokens := is5, m_syms := eb.m_syms.assign name (q2, varq.length) })
              else some (Except.error "Could not parse", { eb with m_tokens := is4 })
        else some (Except.error "Could not parse", { eb with m_tokens := r2.1 })
      else
        let is2 := rewind r1.1 flags t.2
        if is2.eof then some (Except.ok ("_", none), { eb with m_tokens := is2 })
        else
          match parseExpression fuel ⟨eb.m_syms, ParentPos.EXPRESSION⟩ is2 with
          | none => none
          | some (is3, some p) => some (Except.ok ("", some p), { eb with m_tokens := is3 })
          | some (is3, none) =>
            if is3.eof then some (Except.ok ("_", none), { eb with m_tokens := is3 })
            else some (Except.error "Could not parse", { eb with m_tokens := is3 })

/-- The constructor `ExpressionBuilder(expression, syms)` over the text
`expression`: a fresh stream at the start of the text. -/
def ExpressionBuilder.create (expression : String) (syms : SymbolTable) : ExpressionBuilder :=
  { m_tokens := { rest := expression.data, eofbit := false, failbit := false }, m_syms := syms }

end Parser

/-! ### Fuel-bounded evaluation, used to run the reducers on concrete terms -/

/-- The method `replace` with a bound `fuel` on the depth of its calls: the same
case analysis as `replaceSized`, `none` when the fuel runs out. -/
def replaceFuel : Nat → String → Expression → Expression → Option (Bool × Expression)
  | 0, _, _, _ => none
  | fuel + 1, name, expr, t =>
    match t with
    | Name m_name => if name = m_name then some (true, expr) else some (false, Name m_name)
    | Function m_vbound m_body =>
        if collides expr m_vbound = true then
          match replaceFuel fuel m_vbound (Name ("^" ++ m_vbound)) m_body with
          | none => none
          | some p => replaceFuel fuel name expr (Function ("^" ++ m_vbound) p.2)
        else if name = m_vbound then some (false, Function m_vbound m_body)
        else
          match replaceFuel fuel name expr m_body with
          | none => none
          | some q => some (q.1, Function m_vbound q.2)
    | Application m_func m_arg =>
        match replaceFuel fuel name expr m_func, replaceFuel fuel name expr m_arg with
        | some p, some q => some (p.1 || q.1, Application p.2 q.2)
        | _, _ => none

/-- The function `Nreduce1` over `replaceFuel`: `none` when the fuel runs out,
`some none` for no redex. -/
def Nreduce1Fuel (fuel : Nat) : Expression → Option (Option Expression)
  | Application func arg =>
      match func with
      | Function v b =>
        match replaceFuel fuel v arg b with
        | none => none
        | some p => some (some p.2)
      | _ =>
        match Nreduce1Fuel fuel func with
        | none => none
        | some (some new_func) => some (some (Application new_func arg))
        | some none =>
          match Nreduce1Fuel fuel arg with
          | none => none
          | some (some new_arg) => some (some (Application func new_arg))
          | some none => some none
  | Function vbound body =>
      match Nreduce1Fuel fuel body with
      | none => none
      | some (some new_body) => some (some (Function vbound new_body))
      | some none => some none
  | Name _ => some none

/-- Exactly `n` steps of `Nreduce1Fuel` followed by a step that finds no redex:
the term reached, or `none` when the fuel runs out, a redex is missing before
the `n`-th step, or one is left after it. -/
def normalizeFuel (fuel : Nat) : Nat → Expression → Option Expression
  | 0, t =>
    match Nreduce1Fuel fuel t with
    | some none => some t
    | _ => none
  | n + 1, t =>
    match Nreduce1Fuel fuel t with
    | some (some u) => normalizeFuel fuel n u
    | _ => none

namespace Parser

/-- Whether `c` is kept in a word by the lexer: alphanumeric or underscore. -/
def isWordChar (c : Char) : Bool := isalnum c || c == '_'

/-- Whether a word read by the lexer ends before `r`: nothing is left, or the next
character is not a word character. -/
def delimited : List Char → Bool
  | [] => true
  | c :: _ => !isWordChar c

/-- The words that the lexer classifies as keywords. -/
def keywords : List (List Char) :=
  ["def".data, "rec".data, "if".data, "then".data, "else".data, "IF".data, "THEN".data,
    "ELSE".data]

/-- Whether `w` is an identifier: a non-empty word of alphanumerics and
underscores that is neither a keyword nor made of digits only. -/
def isIdentifier (w : List Char) : Bool :=
  !w.isEmpty && w.all isWordChar && !keywords.contains w && !w.all isdigit

/-- Whether every name and bound variable of `t` is an identifier. -/
def wellNamed : Expression → Bool
  | Name m => isIdentifier m.data
  | Function v b => isIdentifier v.data && wellNamed b
  | Application f a => wellNamed f && wellNamed a

end Parser

namespace Expression

/-- Whether `t` is an abstraction (`dynamic_pointer_cast<Function>` succeeds). -/
def isFunction : Expression → Bool
  | Function _ _ => true
  | _ => false

end Expression

namespace Parser

/-- The text of a parameter list: each parameter preceded by one blank. -/
def paramsText : List String → List Char
  | [] => []
  | p :: ps => ' ' :: (p.data ++ paramsText ps)

/-- The keyword that opens a definition: `rec` or `def`. -/
def definitionKeyword (isRec : Bool) : List Char :=
  if isRec then "rec".data else "def".data

/-- The text `def name p1 ... pk =` (or `rec name ...`) followed by `body`: the
words are separated by one blank. -/
def definitionText (isRec : Bool) (name : String) (params : List String) (body : List Char) :
    List Char :=
  definitionKeyword isRec ++ ' ' :: (name.data ++ (paramsText params ++ ' ' :: '=' :: body))

/-- The term registered by `parse1` for a definition with parameters `params`
and parsed body `B`: the body curried over the parameters, the first one
outermost, and for `rec` wrapped as `(recursive λself^. ...)`. -/
def definitionTerm (isRec : Bool) (params : List String) (B : Expression) : Expression :=
  if isRec then
    Application Expressions.recursive (Function selfName (params.foldr Function B))
  else params.foldr Function B

end Parser

/-- Equality of `Except` values is decidable when it is for errors and results. -/
instance Parser.decEqExcept {ε α : Type} [DecidableEq ε] [DecidableEq α] :
    DecidableEq (Except ε α)
  | Except.ok a, Except.ok b =>
    if h : a = b then isTrue (by rw [h]) else isFalse (fun e => h (by cases e; rfl))
  | Except.error a, Except.error b =>
    if h : a = b then isTrue (by rw [h]) else isFalse (fun e => h (by cases e; rfl))
  | Except.ok _, Except.error _ => isFalse (fun e => by cases e)
  | Except.error _, Except.ok _ => isFalse (fun e => by cases e)

/-- The function `Areduce1` over `replaceFuel` and `Nreduce1Fuel`: `none` when
the fuel runs out, `some none` for no redex. -/
def Areduce1Fuel (fuel : Nat) : Expression → Option (Option Expression)
  | Application func arg =>
      match Nreduce1Fuel fuel arg with
      | none => none
      | some (some new_arg) => some (some (Application func new_arg))
      | some none =>
        match func with
        | Function v b =>
          match replaceFuel fuel v arg b with
          | none => none
          | some p => some (some p.2)
        | _ =>
          match Nreduce1Fuel fuel func with
          | none => none
          | some (some new_func) => some (some (Application new_func arg))
          | some none => some none
  | Function vbound body =>
      match Nreduce1Fuel fuel body with
      | none => none
      | some (some new_body) => some (some (Function vbound new_body))
      | some none => some none
  | Name _ => some none

/-- Exactly `n` steps of `Areduce1Fuel` followed by a step that finds no redex:
the term reached, or `none` when the fuel runs out, a redex is missing before
the `n`-th step, or one is left after it. -/
def AnormalizeFuel (fuel : Nat) : Nat → Expression → Option Expression
  | 0, t =>
    match Areduce1Fuel fuel t with
    | some none => some t
    | _ => none
  | n + 1, t =>
    match Areduce1Fuel fuel t with
    | some (some u) => AnormalizeFuel fuel n u
    | _ => none

namespace Expression

/-- Whether some subterm of `t` is a redex: an `Application` whose function
position is a `Function`. -/
def hasRedex : Expression → Bool
  | Name _ => false
  | Function _ b => hasRedex b
  | Application (Function _ _) _ => true
  | Application f a => hasRedex f || hasRedex a

end Expression

namespace Parser

/-- Whether `c` is a character that starts no token of the grammar: not
whitespace, not alphanumeric, not an underscore and none of `λ . ( ) =`. -/
def malformed (c : Char) : Bool :=
  !isspace c && !isalnum c && !(c == '_') &&
    !(c == 'λ') && !(c == '.') && !(c == '(') && !(c == ')') && !(c == '=')

end Parser

namespace Expression

/-! ### Unfolding equations of `replace` -/

theorem replace_Name (name : String) (expr : Expression) (m : String) :
    replace name expr (Name m) = if name = m then (true, expr) else (false, Name m) := by
  unfold replace
  rw [replaceSized]
  split <;> rfl

theorem replace_Application (name : String) (expr f a : Expression) :
    replace name expr (Application f a) =
      ((replace name expr f).1 || (replace name expr a).1,
        Application (replace name expr f).2 (replace name expr a).2) := by
  unfold replace
  rw [replaceSized]

theorem replace_Function (name : String) (expr : Expression) (v : String) (b : Expression) :
    replace name expr (Function v b) =
      if collides expr v = true then
        replace name expr (Aconvert v b ("^" ++ v))
      else if name = v then (false, Function v b)
      else ((replace name expr b).1, Function v (replace name expr b).2) := by
  unfold Aconvert replace
  rw [replaceSized]
  split
  · rfl
  · split <;> rfl

/-! ### Basic facts -/

theorem size_pos (t : Expression) : 0 < t.size := by
  cases t <;> simp [size]

theorem decorated_ne (v : String) : ("^" ++ v) ≠ v := by
  intro h
  have hl := congrArg String.length h
  rw [String.length_append] at hl
  have h1 : "^".length = 1 := by decide
  omega

theorem collides_iff (expr : Expression) (v : String) :
    collides expr v = true ↔ expr = Name v := by
  cases expr <;> simp [collides]

theorem collides_of_not_isName (r : Expression) (v : String) (hr : isName r = false) :
    collides r v = false := by
  cases r <;> simp_all [collides, isName]

theorem collides_of_not_collidesIn_Function (r : Expression) (v : String) (b : Expression)
    (h : collidesIn r (Function v b) = false) :
    collides r v = false ∧ collidesIn r b = false := by
  cases r <;> simp_all [collides, collidesIn, hasBinder]

theorem collidesIn_Application (r f a : Expression)
    (h : collidesIn r (Application f a) = false) :
    collidesIn r f = false ∧ collidesIn r a = false := by
  cases r <;> simp_all [collidesIn, hasBinder]

theorem collidesIn_of_not_isName (r t : Expression) (hr : isName r = false) :
    collidesIn r t = false := by
  cases r <;> simp_all [collidesIn, isName]

/-- When the replacement is not a `Name` naming a binder of the term, the
alpha-conversion branch is never taken and `replace` is naive substitution. -/
theorem replace_eq_substNaive (n : String) (r : Expression) (s : Expression)
    (h : collidesIn r s = false) : replace n r s = substNaive n r s := by
  induction s with
  | Name m => simp [replace_Name, substNaive]
  | Function v b ih =>
    obtain ⟨h1, h2⟩ := collides_of_not_collidesIn_Function r v b h
    simp [replace_Function, substNaive, h1, ih h2]
  | Application f a ihf iha =>
    obtain ⟨h1, h2⟩ := collidesIn_Application r f a h
    simp [replace_Application, substNaive, ihf h1, iha h2]

/-- Naive substitution for a name without free occurrence changes nothing. -/
theorem substNaive_of_not_isFree (n : String) (r : Expression) (s : Expression)
    (h : isFree n s = false) : substNaive n r s = (false, s) := by
  induction s with
  | Name m =>
    have : ¬ n = m := by simpa [isFree] using h
    simp [substNaive, this]
  | Function v b ih =>
    by_cases hv : n = v
    · simp [substNaive, hv]
    · have hb : isFree n b = false := by simpa [isFree, hv] using h
      simp [substNaive, hv, ih hb]
  | Application f a ihf iha =>
    have h2 : isFree n f = false ∧ isFree n a = false := by simpa [isFree] using h
    simp [substNaive, ihf h2.1, iha h2.2]

/-- The flag of naive substitution tells whether the target is free. -/
theorem substNaive_flag (n : String) (r : Expression) (s : Expression) :
    (substNaive n r s).1 = isFree n s := by
  induction s with
  | Name m => by_cases h : n = m <;> simp [substNaive, isFree, h]
  | Function v b ih => by_cases h : n = v <;> simp [substNaive, isFree, h, ih]
  | Application f a ihf iha => simp [substNaive, isFree, ihf, iha]

theorem isFree_le_occurs (n : String) (s : Expression) (h : occurs n s = false) :
    isFree n s = false := by
  induction s with
  | Name m => simpa [isFree, occurs] using h
  | Function v b ih =>
    have h2 : ¬ n = v ∧ occurs n b = false := by simpa [occurs] using h
    simp [isFree, ih h2.2]
  | Application f a ihf iha =>
    have h2 : occurs n f = false ∧ occurs n a = false := by simpa [occurs] using h
    simp [isFree, ihf h2.1, iha h2.2]

/-! ### The alpha-conversion branch -/

/-- A `Name` replacement keeps the size of the term. -/
theorem replace_size_Name (n w : String) (s : Expression) :
    (replace n (Name w) s).2.size = s.size :=
  (replaceSized n (Name w) s).2 rfl

/-- The alpha-conversion branch, unfolded through the retry on the renamed
abstraction: the retry never collides again because `"^" ++ v` differs from `v`. -/
theorem replace_Function_self (name v : String) (b : Expression) :
    replace name (Name v) (Function v b) =
      if name = "^" ++ v then
        (false, Function ("^" ++ v) (replace v (Name ("^" ++ v)) b).2)
      else
        ((replace name (Name v) (replace v (Name ("^" ++ v)) b).2).1,
          Function ("^" ++ v) (replace name (Name v) (replace v (Name ("^" ++ v)) b).2).2) := by
  have h1 : collides (Name v) v = true := by simp [collides]
  have h2 : collides (Name v) ("^" ++ v) = false := by
    simp only [collides, beq_eq_false_iff_ne, ne_eq]
    exact fun h => decorated_ne v h.symm
  rw [replace_Function, if_pos h1, Aconvert]
  simp only [replace_Function, h2]
  simp

/-- Free names of the result of substituting a `Name`: each one is either the
substituted name or was already free in the term and differs from the target. -/
theorem isFree_replace_Name_aux (k : Nat) : ∀ (s : Expression), s.size ≤ k →
    ∀ (name w x : String), isFree x (replace name (Name w) s).2 = true →
      (isFree x s = true ∧ x ≠ name) ∨ x = w := by
  induction k with
  | zero => intro s hs; have := size_pos s; omega
  | succ k ih =>
    intro s hs name w x hx
    cases s with
    | Name m =>
      rw [replace_Name] at hx
      by_cases hm : name = m
      · simp [hm, isFree] at hx; exact Or.inr hx
      · simp only [hm, if_false, isFree, beq_iff_eq] at hx
        left; subst hx; exact ⟨by simp [isFree], fun h => hm h.symm⟩
    | Application f a =>
      simp only [size] at hs
      rw [replace_Application] at hx
      simp only [isFree, Bool.or_eq_true] at hx ⊢
      rcases hx with hx | hx
      · rcases ih f (by omega) name w x hx with h | h
        · exact Or.inl ⟨Or.inl h.1, h.2⟩
        · exact Or.inr h
      · rcases ih a (by omega) name w x hx with h | h
        · exact Or.inl ⟨Or.inr h.1, h.2⟩
        · exact Or.inr h
    | Function v b =>
      simp only [size] at hs
      by_cases hw : w = v
      · subst hw
        rw [replace_Function_self] at hx
        have hb := replace_size_Name w ("^" ++ w) b
        by_cases hn : name = "^" ++ w
        · simp only [hn, if_true, isFree, Bool.and_eq_true, Bool.not_eq_true',
            beq_eq_false_iff_ne, ne_eq] at hx
          rcases ih b (by omega) w ("^" ++ w) x hx.2 with h | h
          · left
            refine ⟨?_, by rw [hn]; exact hx.1⟩
            simp [isFree, h.1, h.2]
          · exact absurd h hx.1
        · simp only [hn, if_false, isFree, Bool.and_eq_true, Bool.not_eq_true',
            beq_eq_false_iff_ne, ne_eq] at hx
          rcases ih _ (by omega) name w x hx.2 with h | h
          · rcases ih b (by omega) w ("^" ++ w) x h.1 with h2 | h2
            · left
              refine ⟨?_, h.2⟩
              simp [isFree, h2.1, h2.2]
            · exact absurd h2 hx.1
          · exact Or.inr h
      · have hc : collides (Name w) v = false := by simp [collides, hw]
        rw [replace_Function] at hx
        simp only [hc, Bool.false_eq_true, if_false] at hx
        by_cases hn : name = v
        · simp only [hn, if_true] at hx
          left
          refine ⟨hx, ?_⟩
          simp only [isFree, Bool.and_eq_true, Bool.not_eq_true', beq_eq_false_iff_ne,
            ne_eq] at hx
          rw [hn]; exact hx.1
        · simp only [hn, if_false, isFree, Bool.and_eq_true, Bool.not_eq_true',
            beq_eq_false_iff_ne, ne_eq] at hx
          rcases ih b (by omega) name w x hx.2 with h | h
          · left
            refine ⟨?_, h.2⟩
            simp [isFree, h.1, hx.1]
          · exact Or.inr h

theorem isFree_replace_Name (s : Expression) (name w x : String)
    (h : isFree x (replace name (Name w) s).2 = true) :
    (isFree x s = true ∧ x ≠ name) ∨ x = w :=
  isFree_replace_Name_aux s.size s (Nat.le_refl _) name w x h

/-- A true flag always comes from a free occurrence of the target. -/
theorem isFree_of_replace_flag_aux (k : Nat) : ∀ (s : Expression), s.size ≤ k →
    ∀ (name : String) (r : Expression), (replace name r s).1 = true → isFree name s = true := by
  induction k with
  | zero => intro s hs; have := size_pos s; omega
  | succ k ih =>
    intro s hs name r hf
    cases s with
    | Name m =>
      rw [replace_Name] at hf
      by_cases hm : name = m
      · simp [isFree, hm]
      · simp [hm] at hf
    | Application f a =>
      simp only [size] at hs
      rw [replace_Application] at hf
      simp only [Bool.or_eq_true] at hf
      simp only [isFree, Bool.or_eq_true]
      rcases hf with hf | hf
      · exact Or.inl (ih f (by omega) name r hf)
      · exact Or.inr (ih a (by omega) name r hf)
    | Function v b =>
      simp only [size] at hs
      by_cases hc : collides r v = true
      · have hr : r = Name v := (collides_iff r v).1 hc
        subst hr
        rw [replace_Function_self] at hf
        have hb := replace_size_Name v ("^" ++ v) b
        by_cases hn : name = "^" ++ v
        · simp [hn] at hf
        · simp only [hn, if_false] at hf
          have h1 := ih _ (by omega) name (Name v) hf
          rcases isFree_replace_Name b v ("^" ++ v) name h1 with h2 | h2
          · simp [isFree, h2.1, h2.2]
          · exact absurd h2 hn
      · rw [replace_Function] at hf
        simp only [hc, if_false] at hf
        by_cases hn : name = v
        · simp [hn] at hf
        · simp only [hn, if_false] at hf
          simp [isFree, hn, ih b (by omega) name r hf]

theorem isFree_of_replace_flag (s : Expression) (name : String) (r : Expression)
    (h : (replace name r s).1 = true) : isFree name s = true :=
  isFree_of_replace_flag_aux s.size s (Nat.le_refl _) name r h

/-- Substituting for a name that is not free, with a replacement that cannot
trigger alpha-conversion inside the term, returns the term itself. -/
theorem replace_of_not_isFree (n : String) (r : Expression) (t : Expression)
    (hfree : isFree n t = false) (hr : collidesIn r t = false) :
    replace n r t = (false, t) := by
  rw [replace_eq_substNaive n r t hr, substNaive_of_not_isFree n r t hfree]

/-! ### Free occurrences through a renaming -/

theorem isFree_eq_freeCount (x : String) (s : Expression) :
    isFree x s = decide (0 < freeCount x s) := by
  induction s with
  | Name m => by_cases h : x = m <;> simp [isFree, freeCount, h]
  | Function w b ih => by_cases h : x = w <;> simp [isFree, freeCount, h, ih]
  | Application f a ihf iha =>
    simp only [isFree, freeCount, ihf, iha]
    by_cases h1 : 0 < freeCount x f <;> by_cases h2 : 0 < freeCount x a <;>
      simp [h1, h2]

theorem freeCount_of_not_occurs (x : String) (s : Expression) (h : occurs x s = false) :
    freeCount x s = 0 := by
  induction s with
  | Name m =>
    have : ¬ x = m := by simpa [occurs] using h
    simp [freeCount, this]
  | Function w b ih =>
    have h2 : ¬ x = w ∧ occurs x b = false := by simpa [occurs] using h
    simp [freeCount, h2.1, ih h2.2]
  | Application f a ihf iha =>
    have h2 : occurs x f = false ∧ occurs x a = false := by simpa [occurs] using h
    simp [freeCount, ihf h2.1, iha h2.2]

theorem hasBinder_le_occurs (x : String) (s : Expression) (h : occurs x s = false) :
    hasBinder x s = false := by
  induction s with
  | Name m => rfl
  | Function w b ih =>
    have h2 : ¬ x = w ∧ occurs x b = false := by simpa [occurs] using h
    simp [hasBinder, h2.1, ih h2.2]
  | Application f a ihf iha =>
    have h2 : occurs x f = false ∧ occurs x a = false := by simpa [occurs] using h
    simp [hasBinder, ihf h2.1, iha h2.2]

theorem scopeClean_of_not_occurs (v : String) (s : Expression)
    (h : occurs ("^" ++ v) s = false) : scopeClean v s = true := by
  induction s with
  | Name m => rfl
  | Function w b ih =>
    have h2 : ¬ ("^" ++ v) = w ∧ occurs ("^" ++ v) b = false := by simpa [occurs] using h
    simp [scopeClean, h2.2, ih h2.2]
  | Application f a ihf iha =>
    have h2 : occurs ("^" ++ v) f = false ∧ occurs ("^" ++ v) a = false := by
      simpa [occurs] using h
    simp [scopeClean, ihf h2.1, iha h2.2]

/-- Renaming `v` to a name `w` that occurs nowhere in the term: the free
occurrences of `v` become free occurrences of `w`, nothing else changes. -/
theorem freeCount_substNaive_fresh (v w : String) (hwv : w ≠ v) (x : String) (c : Expression)
    (h : occurs w c = false) :
    freeCount x (substNaive v (Name w) c).2 =
      if x = w then freeCount v c else if x = v then 0 else freeCount x c := by
  induction c with
  | Name m =>
    have hm : ¬ w = m := by simpa [occurs] using h
    by_cases hvm : v = m
    · subst hvm
      by_cases hx : x = w
      · simp [substNaive, freeCount, hx]
      · by_cases hxv : x = v <;> simp [substNaive, freeCount, hx, hxv]
    · by_cases hx : x = w
      · subst hx; simp [substNaive, freeCount, hvm, hm]
      · by_cases hxv : x = v
        · subst hxv; simp [substNaive, freeCount, hvm, hx]
        · simp [substNaive, freeCount, hvm, hx, hxv]
  | Function u d ih =>
    have h2 : ¬ w = u ∧ occurs w d = false := by simpa [occurs] using h
    have ihd := ih h2.2
    by_cases hvu : v = u
    · subst hvu
      by_cases hx : x = w
      · subst hx
        simp [substNaive, freeCount, hwv, freeCount_of_not_occurs x d h2.2]
      · by_cases hxv : x = v <;> simp [substNaive, freeCount, hx, hxv]
    · by_cases hx : x = w
      · subst hx
        simp [substNaive, freeCount, hvu, h2.1, ihd]
      · by_cases hxv : x = v
        · subst hxv
          simp [substNaive, freeCount, hvu, ihd, hx]
        · by_cases hxu : x = u
          · subst hxu; simp [substNaive, freeCount, hvu, hx]
          · simp [substNaive, freeCount, hvu, ihd, hx, hxv, hxu]
  | Application f a ihf iha =>
    have h2 : occurs w f = false ∧ occurs w a = false := by simpa [occurs] using h
    simp only [substNaive, freeCount, ihf h2.1, iha h2.2]
    by_cases hx : x = w
    · simp [hx]
    · by_cases hxv : x = v
      · subst hxv; simp [hx]
      · simp [hx, hxv]

/-- Renaming `v` to `"^" ++ v` in a term where the decorated name occurs nowhere
keeps every `v`-abstraction free of the decorated name. -/
theorem scopeClean_substNaive_fresh (v : String) (c : Expression)
    (h : occurs ("^" ++ v) c = false) :
    scopeClean v (substNaive v (Name ("^" ++ v)) c).2 = true := by
  induction c with
  | Name m => by_cases hvm : v = m <;> simp [substNaive, hvm, scopeClean]
  | Function u d ih =>
    have h2 : ¬ ("^" ++ v) = u ∧ occurs ("^" ++ v) d = false := by simpa [occurs] using h
    by_cases hvu : v = u
    · subst hvu
      simp [substNaive, scopeClean, h2.2, scopeClean_of_not_occurs v d h2.2]
    · have huv : ¬ u = v := fun e => hvu e.symm
      simp [substNaive, scopeClean, hvu, huv, ih h2.2]
  | Application f a ihf iha =>
    have h2 : occurs ("^" ++ v) f = false ∧ occurs ("^" ++ v) a = false := by
      simpa [occurs] using h
    simp [substNaive, scopeClean, ihf h2.1, iha h2.2]

/-- The renaming done by `Aconvert` with the decorated name, when that name
occurs nowhere in the body, is the naive one. -/
theorem replace_decorated_eq (v : String) (c : Expression)
    (h : occurs ("^" ++ v) c = false) :
    replace v (Name ("^" ++ v)) c = substNaive v (Name ("^" ++ v)) c := by
  apply replace_eq_substNaive
  simpa [collidesIn] using hasBinder_le_occurs ("^" ++ v) c h

/-- Substituting the name `v` for `t` in a term whose `v`-abstractions are free of
the decorated name: the free occurrences of `t` become free occurrences of `v`,
and every other free occurrence is kept. -/
theorem freeCount_replace_clean_aux (v t : String) (htv : t ≠ v) (htd : t ≠ "^" ++ v)
    (k : Nat) : ∀ (s : Expression), s.size ≤ k → scopeClean v s = true →
    ∀ (x : String), freeCount x (replace t (Name v) s).2 =
      if x = v then freeCount v s + freeCount t s
      else if x = t then 0 else freeCount x s := by
  have hvt : ¬ v = t := fun e => htv e.symm
  have hdv : ¬ ("^" ++ v) = v := decorated_ne v
  have hvd : ¬ v = "^" ++ v := fun e => hdv e.symm
  induction k with
  | zero => intro s hs; have := size_pos s; omega
  | succ k ih =>
    intro s hs hclean x
    cases s with
    | Name m =>
      rw [replace_Name]
      by_cases htm : t = m
      · have hvm : ¬ v = m := fun e => hvt (e.trans htm.symm)
        by_cases hxv : x = v
        · simp [freeCount, htm, hxv, hvm]
        · by_cases hxt : x = t
          · have hxm : x = m := hxt.trans htm
            simp [freeCount, htm, hxv, hxm, hvm]
          · have hxm : ¬ x = m := fun e => hxt (e.trans htm.symm)
            simp [freeCount, htm, hxv, hxm, hvm]
      · by_cases hxv : x = v
        · simp [freeCount, htm, hxv]
        · by_cases hxt : x = t
          · simp [freeCount, htm, hxt, htv]
          · simp [freeCount, htm, hxv, hxt]
    | Application f a =>
      simp only [size] at hs
      have hc : scopeClean v f = true ∧ scopeClean v a = true := by
        simpa [scopeClean] using hclean
      rw [replace_Application]
      simp only [freeCount, ih f (by omega) hc.1 x, ih a (by omega) hc.2 x]
      by_cases hxv : x = v
      · simp [hxv]; omega
      · by_cases hxt : x = t
        · simp [hxt, htv]
        · simp [hxv, hxt]
    | Function u c =>
      simp only [size] at hs
      have hc : (¬ u = v ∨ occurs ("^" ++ v) c = false) ∧ scopeClean v c = true := by
        simpa [scopeClean] using hclean
      by_cases hvu : v = u
      · subst hvu
        have hocc : occurs ("^" ++ v) c = false := by
          rcases hc.1 with h | h
          · exact absurd rfl h
          · exact h
        have hsz := replace_size_Name v ("^" ++ v) c
        rw [replace_Function_self, if_neg htd]
        rw [replace_decorated_eq v c hocc] at hsz ⊢
        have hcl := scopeClean_substNaive_fresh v c hocc
        have hfr := fun y => freeCount_substNaive_fresh v ("^" ++ v) hdv y c hocc
        have hzero := freeCount_of_not_occurs ("^" ++ v) c hocc
        simp only [freeCount, ih _ (by omega) hcl x, hfr]
        have hdt : ¬ ("^" ++ v) = t := fun e => htd e.symm
        by_cases hxd : x = "^" ++ v
        · simp [hxd, hdv, hdt, hzero]
        · by_cases hxv : x = v
          · simp [hxv, hvd, htd, htv]
          · by_cases hxt : x = t
            · simp [hxt, htd, htv]
            · simp [hxd, hxv, hxt]
      · have hcol : collides (Name v) u = false := by simp [collides, hvu]
        rw [replace_Function]
        simp only [hcol, Bool.false_eq_true, if_false]
        by_cases htu : t = u
        · by_cases hxv : x = v
          · simp [freeCount, htu, hxv, hvu]
          · by_cases hxt : x = t
            · have hxu : x = u := hxt.trans htu
              have huv : ¬ u = v := fun e => hvu e.symm
              simp [freeCount, htu, hxu, huv]
            · have hxu : ¬ x = u := fun e => hxt (e.trans htu.symm)
              simp [freeCount, htu, hxv, hxu]
        · simp only [htu, if_false, freeCount, ih c (by omega) hc.2 x]
          by_cases hxu : x = u
          · have huv : ¬ u = v := fun e => hvu e.symm
            have hut : ¬ u = t := fun e => htu e.symm
            simp [hxu, huv, hut]
          · by_cases hxv : x = v
            · simp [hxv, hvu, htu]
            · by_cases hxt : x = t
              · simp [hxt, htu, htv]
              · simp [hxu, hxv, hxt]

/-- Free occurrences in the result of substituting the bound name itself into
`λv.b`, when the decorated name occurs nowhere in `b`. -/
theorem freeCount_replace_own_binder (v t : String) (b : Expression) (htv : t ≠ v)
    (hocc : occurs ("^" ++ v) b = false) (x : String) :
    freeCount x (replace t (Name v) (Function v b)).2 =
      if x = v then freeCount t (Function v b)
      else if x = t then 0 else freeCount x (Function v b) := by
  have hdv : ¬ ("^" ++ v) = v := decorated_ne v
  have hvd : ¬ v = "^" ++ v := fun e => hdv e.symm
  by_cases htd : t = "^" ++ v
  · have hfr := fun y => freeCount_substNaive_fresh v ("^" ++ v) hdv y b hocc
    have hzero := freeCount_of_not_occurs ("^" ++ v) b hocc
    rw [replace_Function_self, if_pos htd, replace_decorated_eq v b hocc]
    simp only [freeCount, hfr]
    by_cases hxd : x = "^" ++ v
    · simp [hxd, htd, hdv]
    · by_cases hxv : x = v
      · simp [hxv, htd, hvd, hdv, hzero]
      · simp [hxd, hxv, htd]
  · have hclean : scopeClean v (Function v b) = true := by
      simp [scopeClean, hocc, scopeClean_of_not_occurs v b hocc]
    rw [freeCount_replace_clean_aux v t htv htd _ (Function v b) (Nat.le_refl _) hclean x]
    by_cases hxv : x = v
    · simp [hxv, freeCount]
    · simp [hxv]

/-! ### Claims on `replace` -/

/-- Claim C1, as amended. For a name `n` occurring nowhere in `t` (neither as a
`Name` nor as a binder) and any replacement `r`, `replace` returns the flag
false; and whenever `r` is not a `Name` equal to a binder of `t`, the returned
term is `t` itself, hence prints identically. -/
theorem replace_absent_name (t : Expression) (n : String) (r : Expression)
    (h : occurs n t = false) :
    (replace n r t).1 = false ∧
      (collidesIn r t = false →
        (replace n r t).2 = t ∧ print (replace n r t).2 = print t) := by
  have hfree : isFree n t = false := isFree_le_occurs n t h
  constructor
  · cases hflag : (replace n r t).1 with
    | false => rfl
    | true => rw [isFree_of_replace_flag t n r hflag] at hfree; cases hfree
  · intro hr
    rw [replace_of_not_isFree n r t hfree hr]
    exact ⟨rfl, rfl⟩

/-- Witness for Claim C1: the theorem at `t = λx.x`, `n = q`, `r = y`. -/
theorem replace_absent_name_witness :
    occurs "q" (Function "x" (Name "x")) = false ∧
      collidesIn (Name "y") (Function "x" (Name "x")) = false ∧
      (replace "q" (Name "y") (Function "x" (Name "x"))).1 = false ∧
      (replace "q" (Name "y") (Function "x" (Name "x"))).2 = Function "x" (Name "x") ∧
      print (replace "q" (Name "y") (Function "x" (Name "x"))).2 =
        print (Function "x" (Name "x")) :=
  ⟨by decide, by decide,
    (replace_absent_name (Function "x" (Name "x")) "q" (Name "y") (by decide)).1,
    (replace_absent_name (Function "x" (Name "x")) "q" (Name "y") (by decide)).2 (by decide)⟩

/-- Claim C1 fails as stated: `q` occurs nowhere in `λx.x`, yet replacing `q` by
the name `x` returns `λ^x.^x`, which does not print like `λx.x`. -/
theorem replace_absent_name_counterexample :
    occurs "q" (Function "x" (Name "x")) = false ∧
      (replace "q" (Name "x") (Function "x" (Name "x"))).2 = Function "^x" (Name "^x") ∧
      print (replace "q" (Name "x") (Function "x" (Name "x"))).2 ≠
        print (Function "x" (Name "x")) := by
  have hr : replace "q" (Name "x") (Function "x" (Name "x")) =
      (false, Function "^x" (Name "^x")) := by
    simp [replace_Function_self, replace_Name]
  refine ⟨by decide, by rw [hr], ?_⟩
  rw [hr]
  decide

/-- Claim C2, the code at the failing input: `^x` is free in `λx.^x`, but
replacing `^x` by the name `x` renames the binder to `^x`, which captures the
free occurrence, and the flag comes back false. -/
theorem replace_flag_false_on_captured_free :
    isFree "^x" (Function "x" (Name "^x")) = true ∧
      replace "^x" (Name "x") (Function "x" (Name "^x")) =
        (false, Function "^x" (Name "^x")) := by
  refine ⟨by decide, ?_⟩
  simp [replace_Function_self, replace_Name]

/-- Claim C3, as amended. Substituting for the bound name of `λv.b` any
replacement other than the name `v` itself returns `(false, λv.b)`, with the
same binder and body. -/
theorem replace_shadowed (v : String) (b r : Expression) (hr : r ≠ Name v) :
    replace v r (Function v b) = (false, Function v b) := by
  have hc : collides r v = false := by
    cases hcv : collides r v with
    | false => rfl
    | true => exact absurd ((collides_iff r v).1 hcv) hr
  rw [replace_Function]
  simp [hc]

/-- Witness for Claim C3: `replace(x, (x x), λx.x)`. -/
theorem replace_shadowed_witness :
    Application (Name "x") (Name "x") ≠ Name "x" ∧
      replace "x" (Application (Name "x") (Name "x")) (Function "x" (Name "x")) =
        (false, Function "x" (Name "x")) :=
  ⟨by decide, replace_shadowed "x" (Name "x") (Application (Name "x") (Name "x")) (by decide)⟩

/-- Claim C3 fails as stated: with the replacement `x`, substituting for the
bound name of `λx.x` returns `λ^x.^x`, not `λx.x`. -/
theorem replace_shadowed_counterexample :
    replace "x" (Name "x") (Function "x" (Name "x")) = (false, Function "^x" (Name "^x")) ∧
      replace "x" (Name "x") (Function "x" (Name "x")) ≠ (false, Function "x" (Name "x")) := by
  have hr : replace "x" (Name "x") (Function "x" (Name "x")) =
      (false, Function "^x" (Name "^x")) := by
    simp [replace_Function_self, replace_Name]
  refine ⟨hr, ?_⟩
  rw [hr]
  decide

/-- Claim C4. For `t ≠ v` and a body `b` in which `"^" ++ v` occurs nowhere,
`replace(t, Name v, λv.b)` returns an abstraction bound to `"^" ++ v`; a name is
free in the result exactly when it is free in `λv.b` with `t` replaced by `v`
(unchanged when `t` is not free in `λv.b`); and the result has as many free
occurrences of `v` as `λv.b` has free occurrences of `t`, so that no
substituted-in `v` is captured. -/
theorem replace_own_binder_name (v t : String) (b : Expression) (htv : t ≠ v)
    (hocc : occurs ("^" ++ v) b = false) :
    (∃ b2, (replace t (Name v) (Function v b)).2 = Function ("^" ++ v) b2) ∧
    (∀ x, isFree x (replace t (Name v) (Function v b)).2 =
      if isFree t (Function v b) = true then
        (decide (x = v) || (!decide (x = t) && isFree x (Function v b)))
      else isFree x (Function v b)) ∧
    freeCount v (replace t (Name v) (Function v b)).2 = freeCount t (Function v b) := by
  have hcount := freeCount_replace_own_binder v t b htv hocc
  refine ⟨?_, ?_, ?_⟩
  · rw [replace_Function_self]
    by_cases htd : t = "^" ++ v
    · exact ⟨_, by rw [if_pos htd]⟩
    · exact ⟨_, by rw [if_neg htd]⟩
  · intro x
    have hv0 : freeCount v (Function v b) = 0 := by simp [freeCount]
    simp only [isFree_eq_freeCount, hcount x]
    by_cases hxv : x = v
    · by_cases hpos : 0 < freeCount t (Function v b)
      · simp [hxv, hpos]
      · simp [hxv, hpos, hv0]
    · by_cases hxt : x = t
      · by_cases hpos : 0 < freeCount t (Function v b)
        · simp [hxt, htv, hpos]
        · simp [hxt, htv, hpos]
      · by_cases hpos : 0 < freeCount t (Function v b)
        · simp [hxv, hxt, hpos]
        · simp [hxv, hxt, hpos]
  · simpa using hcount v

/-- Witness for Claim C4: `replace(y, x, λx.(x y))`. -/
theorem replace_own_binder_name_witness :
    ("y" ≠ "x" ∧ occurs ("^" ++ "x") (Application (Name "x") (Name "y")) = false) ∧
    ((∃ b2, (replace "y" (Name "x") (Function "x" (Application (Name "x") (Name "y")))).2 =
        Function ("^" ++ "x") b2) ∧
    (∀ x, isFree x (replace "y" (Name "x") (Function "x" (Application (Name "x") (Name "y")))).2 =
      if isFree "y" (Function "x" (Application (Name "x") (Name "y"))) = true then
        (decide (x = "x") || (!decide (x = "y") &&
          isFree x (Function "x" (Application (Name "x") (Name "y")))))
      else isFree x (Function "x" (Application (Name "x") (Name "y")))) ∧
    freeCount "x" (replace "y" (Name "x") (Function "x" (Application (Name "x") (Name "y")))).2 =
      freeCount "y" (Function "x" (Application (Name "x") (Name "y")))) :=
  ⟨⟨by decide, by decide⟩,
    replace_own_binder_name "x" "y" (Application (Name "x") (Name "y")) (by decide) (by decide)⟩

/-- Claim C5. For a replacement `r` that is not a `Name`, `replace` is naive
substitution: it agrees with `substNaive` on every term (no binder is renamed,
a binder equal to the target stops the substitution), and on `λv.b` with
`v ≠ t` it returns the flag and result of the body re-wrapped under `v`,
whatever the free names of `r`; for instance `replace(y, (x x), λx.y)` is
`(true, λx.(x x))`. -/
theorem replace_non_Name_is_naive (t : String) (r : Expression) (hr : isName r = false) :
    (∀ s, replace t r s = substNaive t r s) ∧
    (∀ v b, replace t r (Function v b) =
      if t = v then (false, Function v b)
      else ((replace t r b).1, Function v (replace t r b).2)) ∧
    replace "y" (Application (Name "x") (Name "x")) (Function "x" (Name "y")) =
      (true, Function "x" (Application (Name "x") (Name "x"))) := by
  refine ⟨fun s => replace_eq_substNaive t r s (collidesIn_of_not_isName r s hr), ?_, ?_⟩
  · intro v b
    rw [replace_Function]
    simp [collides_of_not_isName r v hr]
  · simp [replace_Function, replace_Name, collides]

/-- Witness for Claim C5: the theorem at `t = y`, `r = (x x)`. -/
theorem replace_non_Name_is_naive_witness :
    isName (Application (Name "x") (Name "x")) = false ∧
    ((∀ s, replace "y" (Application (Name "x") (Name "x")) s =
        substNaive "y" (Application (Name "x") (Name "x")) s) ∧
    (∀ v b, replace "y" (Application (Name "x") (Name "x")) (Function v b) =
      if "y" = v then (false, Function v b)
      else ((replace "y" (Application (Name "x") (Name "x")) b).1,
        Function v (replace "y" (Application (Name "x") (Name "x")) b).2)) ∧
    replace "y" (Application (Name "x") (Name "x")) (Function "x" (Name "y")) =
      (true, Function "x" (Application (Name "x") (Name "x")))) :=
  ⟨by decide, replace_non_Name_is_naive "y" (Application (Name "x") (Name "x")) (by decide)⟩

end Expression

/-! ### The single-step reducers -/

/-- Claim C6. `Nreduce1` contracts the leftmost-outermost redex: no redex on a
`Name`; under `λv.b` exactly the step of the body; on `((λv.b) a)` the result
term of `replace(v, a, b)` with `a` passed as it is; on `(f a)` with `f` not an
abstraction, the step of `f` if there is one, else the step of `a`, else no
redex. -/
theorem Nreduce1_cases (t : Expression) :
    Nreduce1 t =
      match t with
      | Name _ => none
      | Function v b => Option.map (Function v) (Nreduce1 b)
      | Application (Function v b) a => some (replace v a b).2
      | Application f a =>
          match Nreduce1 f with
          | some f2 => some (Application f2 a)
          | none => Option.map (Application f) (Nreduce1 a) := by
  cases t with
  | Name m => rfl
  | Function v b =>
    simp only [Nreduce1]
    cases Nreduce1 b <;> rfl
  | Application f a =>
    cases f with
    | Name m =>
      simp only [Nreduce1, Expression.apply]
      cases Nreduce1 a <;> rfl
    | Function v b => simp [Nreduce1, Expression.apply, Breduce]
    | Application g h =>
      simp only [Nreduce1, Expression.apply]
      cases Nreduce1 g <;> cases Nreduce1 h <;> cases Nreduce1 a <;> rfl

/-- Claim C7, the code at the failing input. With `a = ((λx.(x x)) ((λx.x) z))`,
`Areduce1 a` is `((λx.(x x)) z)`, but `Areduce1 (f a)` rewrites the argument by
`Nreduce1` and returns `(f (((λx.x) z) ((λx.x) z)))` instead of
`(f ((λx.(x x)) z))`. -/
theorem Areduce1_argument_uses_Nreduce1 :
    Areduce1 (Application (Function "x" (Application (Name "x") (Name "x")))
        (Application (Function "x" (Name "x")) (Name "z"))) =
      some (Application (Function "x" (Application (Name "x") (Name "x"))) (Name "z")) ∧
    Areduce1 (Application (Name "f")
        (Application (Function "x" (Application (Name "x") (Name "x")))
          (Application (Function "x" (Name "x")) (Name "z")))) =
      some (Application (Name "f")
        (Application (Application (Function "x" (Name "x")) (Name "z"))
          (Application (Function "x" (Name "x")) (Name "z")))) ∧
    Areduce1 (Application (Name "f")
        (Application (Function "x" (Application (Name "x") (Name "x")))
          (Application (Function "x" (Name "x")) (Name "z")))) ≠
      some (Application (Name "f")
        (Application (Function "x" (Application (Name "x") (Name "x"))) (Name "z"))) := by
  have h2 : Areduce1 (Application (Name "f")
        (Application (Function "x" (Application (Name "x") (Name "x")))
          (Application (Function "x" (Name "x")) (Name "z")))) =
      some (Application (Name "f")
        (Application (Application (Function "x" (Name "x")) (Name "z"))
          (Application (Function "x" (Name "x")) (Name "z")))) := by
    simp [Areduce1, Nreduce1, Expression.apply, Breduce, replace_Application, replace_Name]
  refine ⟨?_, h2, ?_⟩
  · simp [Areduce1, Nreduce1, Expression.apply, Breduce, replace_Application, replace_Name]
  · rw [h2]; decide

/-! ### The bounded driver -/

theorem reduceLoop_eq (i : Nat) (result : Expression) :
    reduceLoop i result =
      if 0 < i % 2 ^ 32 then
        match Areduce1 result with
        | none => Except.ok result
        | some interm => reduceLoop ((i + 1) % 2 ^ 32) interm
      else Except.error ReduceError.TooManyStepsError := by
  rw [reduceLoop]

theorem Nreduce1_idChain_succ (n : Nat) : Nreduce1 (idChain (n + 1)) = some (idChain n) := by
  simp [idChain, Nreduce1, Expression.apply, Breduce, replace_Name]

theorem Areduce1_idChain_succ (n : Nat) : Areduce1 (idChain (n + 1)) = some (idChain n) := by
  cases n with
  | zero => simp [idChain, Areduce1, Nreduce1, Expression.apply, Breduce, replace_Name]
  | succ n =>
    have h := Nreduce1_idChain_succ n
    rw [idChain, Areduce1, h]
    rfl

theorem Areduce1_idChain_zero : Areduce1 (idChain 0) = none := rfl

theorem AreduceN_idChain (n : Nat) : AreduceN n (idChain n) = some (idChain 0) := by
  induction n with
  | zero => rfl
  | succ n ih => rw [AreduceN, Areduce1_idChain_succ]; exact ih

/-- Entered with a counter that stays below the wrap-around, the loop runs the
chain of identities down to its normal form and returns it. -/
theorem reduceLoop_idChain (n : Nat) : ∀ (i : Nat), 0 < i → i + n < 2 ^ 32 →
    reduceLoop i (idChain n) = Except.ok (idChain 0) := by
  induction n with
  | zero =>
    intro i h0 hlt
    have h1 : 0 < i % 2 ^ 32 := by omega
    rw [reduceLoop_eq, Areduce1_idChain_zero, if_pos h1]
  | succ n ih =>
    intro i h0 hlt
    have h1 : 0 < i % 2 ^ 32 := by omega
    have h2 : (i + 1) % 2 ^ 32 = i + 1 := by omega
    rw [reduceLoop_eq, Areduce1_idChain_succ, if_pos h1, h2]
    exact ih (i + 1) (by omega) (by omega)

/-- Claim C8, the code at the failing input. From the chain of 1024 identities
applied to `z`, 1024 consecutive `Areduce1` steps all find a redex, and yet
`reduce` returns the normal form `z` instead of failing: the counter starts at
1024 and is incremented, so the loop is still running at the 1025th step. -/
theorem reduce_returns_after_1024_steps :
    AreduceN 1024 (idChain 1024) = some (Name "z") ∧
      reduce (idChain 1024) = Except.ok (Name "z") :=
  ⟨AreduceN_idChain 1024, reduceLoop_idChain 1024 1024 (by decide) (by decide)⟩

theorem Areduce1_selfApp : Areduce1 selfApp = some selfApp := by
  simp [selfApp, Areduce1, Nreduce1, Expression.apply, Breduce, replace_Application,
    replace_Name]

/-- On a term that `Areduce1` maps to itself the loop can only end through its
condition, once the counter has wrapped around to zero. -/
theorem reduceLoop_of_fixed (t : Expression) (h : Areduce1 t = some t) (k : Nat) :
    ∀ (i : Nat), (2 ^ 32 - i % 2 ^ 32) % 2 ^ 32 ≤ k →
      reduceLoop i t = Except.error ReduceError.TooManyStepsError := by
  induction k with
  | zero =>
    intro i hi
    have h0 : ¬ 0 < i % 2 ^ 32 := by omega
    rw [reduceLoop_eq, if_neg h0]
  | succ k ih =>
    intro i hi
    rw [reduceLoop_eq, h]
    by_cases h0 : 0 < i % 2 ^ 32
    · rw [if_pos h0]
      exact ih _ (by omega)
    · rw [if_neg h0]

/-- Claim C9. `reduce` on `((λx.(x x)) (λx.(x x)))` does not return a term: it
fails with `TooManyStepsError`. -/
theorem reduce_selfApp :
    Areduce1 selfApp = some selfApp ∧
      reduce selfApp = Except.error ReduceError.TooManyStepsError :=
  ⟨Areduce1_selfApp, reduceLoop_of_fixed selfApp Areduce1_selfApp _ MAX_REDUCE_STEPS (Nat.le_refl _)⟩

/-- Claim C10. One normal-order step on `((λx.x) a)` returns exactly `a`. -/
theorem Nreduce1_identity (a : Expression) :
    Nreduce1 (Application (Function "x" (Name "x")) a) = some a := by
  simp [Nreduce1, Expression.apply, Breduce, replace_Name]

/-! ### Claim on the applicative-order step of an identity application -/

/-- Claim C11 fails as stated: `a = ((λy.y) (λz.z))` is closed, and the step on
`((λx.x) a)` reduces inside the argument, returning `((λx.x) (λz.z))`. -/
theorem Areduce1_identity_counterexample :
    isClosed (Application (Function "y" (Name "y")) (Function "z" (Name "z"))) = true ∧
      Areduce1 (Application (Function "x" (Name "x"))
          (Application (Function "y" (Name "y")) (Function "z" (Name "z")))) =
        some (Application (Function "x" (Name "x")) (Function "z" (Name "z"))) ∧
      Areduce1 (Application (Function "x" (Name "x"))
          (Application (Function "y" (Name "y")) (Function "z" (Name "z")))) ≠
        some (Application (Function "y" (Name "y")) (Function "z" (Name "z"))) := by
  have h : Areduce1 (Application (Function "x" (Name "x"))
          (Application (Function "y" (Name "y")) (Function "z" (Name "z")))) =
        some (Application (Function "x" (Name "x")) (Function "z" (Name "z"))) := by
    simp [Areduce1, Nreduce1, Expression.apply, Breduce, replace_Name]
  refine ⟨by decide, h, ?_⟩
  rw [h]
  decide

/-! ### Soundness of the fuel-bounded evaluation -/

theorem replaceFuel_sound (fuel : Nat) : ∀ (name : String) (expr t : Expression)
    (p : Bool × Expression), replaceFuel fuel name expr t = some p → replace name expr t = p := by
  induction fuel with
  | zero => intro name expr t p h; simp [replaceFuel] at h
  | succ fuel ih =>
    intro name expr t p h
    cases t with
    | Name m =>
      rw [replace_Name]
      simp only [replaceFuel] at h
      split at h <;> rename_i hm <;> simp [hm] <;> simpa using h
    | Function v b =>
      rw [replace_Function, Aconvert]
      simp only [replaceFuel] at h
      by_cases hc : collides expr v = true
      · simp only [hc, if_true] at h ⊢
        cases h1 : replaceFuel fuel v (Name ("^" ++ v)) b with
        | none => simp [h1] at h
        | some p1 =>
          simp only [h1] at h
          rw [ih _ _ _ _ h1]
          exact ih _ _ _ _ h
      · simp only [hc, if_false] at h ⊢
        by_cases hn : name = v
        · simp only [hn, if_true] at h ⊢
          simpa using h
        · simp only [hn, if_false] at h ⊢
          cases h1 : replaceFuel fuel name expr b with
          | none => simp [h1] at h
          | some q =>
            simp only [h1] at h
            rw [ih _ _ _ _ h1]
            simpa using h
    | Application f a =>
      rw [replace_Application]
      simp only [replaceFuel] at h
      cases h1 : replaceFuel fuel name expr f with
      | none => simp [h1] at h
      | some p1 =>
        cases h2 : replaceFuel fuel name expr a with
        | none => simp [h1, h2] at h
        | some p2 =>
          simp only [h1, h2] at h
          rw [ih _ _ _ _ h1, ih _ _ _ _ h2]
          simpa using h

theorem Nreduce1Fuel_sound (fuel : Nat) : ∀ (t : Expression) (r : Option Expression),
    Nreduce1Fuel fuel t = some r → Nreduce1 t = r := by
  intro t
  induction t with
  | Name m => intro r h; simp [Nreduce1Fuel] at h; simp [Nreduce1, h]
  | Function v b ih =>
    intro r h
    simp only [Nreduce1Fuel] at h
    cases h1 : Nreduce1Fuel fuel b with
    | none => simp [h1] at h
    | some r1 =>
      have hb := ih r1 h1
      cases r1 with
      | none => simp only [h1] at h; simp [Nreduce1, hb]; simpa using h
      | some u => simp only [h1] at h; simp [Nreduce1, hb]; simpa using h
  | Application f a ihf iha =>
    intro r h
    cases f with
    | Function v b =>
      simp only [Nreduce1Fuel] at h
      cases h1 : replaceFuel fuel v a b with
      | none => simp [h1] at h
      | some p =>
        simp only [h1] at h
        simp [Nreduce1, Expression.apply, Breduce, replaceFuel_sound fuel v a b p h1]
        simpa using h
    | Name m =>
      simp only [Nreduce1Fuel] at h
      cases h2 : Nreduce1Fuel fuel a with
      | none => simp [h2] at h
      | some r2 =>
        have ha := iha r2 h2
        cases r2 with
        | none => simp only [h2] at h; simp [Nreduce1, Expression.apply, ha]; simpa using h
        | some u => simp only [h2] at h; simp [Nreduce1, Expression.apply, ha]; simpa using h
    | Application g k =>
      simp only [Nreduce1Fuel] at h
      cases h1 : Nreduce1Fuel fuel (Application g k) with
      | none => simp only [Nreduce1Fuel] at h1; simp [h1] at h
      | some r1 =>
        have hf := ihf r1 h1
        simp only [Nreduce1Fuel] at h1
        cases r1 with
        | some u =>
          simp only [h1] at h
          simp only [Nreduce1, Expression.apply] at hf ⊢
          simp only [hf]
          simpa using h
        | none =>
          simp only [h1] at h
          cases h2 : Nreduce1Fuel fuel a with
          | none => simp [h2] at h
          | some r2 =>
            have ha := iha r2 h2
            simp only [Nreduce1, Expression.apply] at hf ⊢
            cases r2 with
            | none => simp only [h2] at h; simp only [hf, ha]; simpa using h
            | some u => simp only [h2] at h; simp only [hf, ha]; simpa using h

theorem normalizeFuel_sound (fuel : Nat) : ∀ (n : Nat) (t u : Expression),
    normalizeFuel fuel n t = some u → NreduceN n t = some u ∧ Nreduce1 u = none := by
  intro n
  induction n with
  | zero =>
    intro t u h
    simp only [normalizeFuel] at h
    cases h1 : Nreduce1Fuel fuel t with
    | none => simp [h1] at h
    | some r =>
      cases r with
      | some v => simp [h1] at h
      | none =>
        simp only [h1, Option.some.injEq] at h
        subst h
        exact ⟨rfl, Nreduce1Fuel_sound fuel t none h1⟩
  | succ n ih =>
    intro t u h
    simp only [normalizeFuel] at h
    cases h1 : Nreduce1Fuel fuel t with
    | none => simp [h1] at h
    | some r =>
      cases r with
      | none => simp [h1] at h
      | some v =>
        simp only [h1] at h
        have := ih v u h
        simp only [NreduceN, Nreduce1Fuel_sound fuel t _ h1]
        exact this

/-! ### Claim on `equal 3 (add 1 2)` -/

set_option maxRecDepth 100000 in
/-- Claim C18. With the numerals of `parseInt`, 359 steps of `Nreduce1` (the
reducer iterated by `main`) take `((equal 3) ((add 1) 2))` to a term without
redex, which is `select_first` and prints as `λx.λy.x`. -/
theorem equal_three_add_one_two :
    NreduceN 359
        (Application (Application Expressions.equal (numeral 3))
          (Application (Application Expressions.add (numeral 1)) (numeral 2))) =
      some Expressions.select_first ∧
    Nreduce1 Expressions.select_first = none ∧
    print Expressions.select_first = "λx.λy.x" := by
  have h : normalizeFuel 10000 359
      (Application (Application Expressions.equal (numeral 3))
        (Application (Application Expressions.add (numeral 1)) (numeral 2))) =
      some Expressions.select_first := by
    decide!
  have h2 := normalizeFuel_sound 10000 359 _ _ h
  exact ⟨h2.1, h2.2, by decide⟩

open Parser

/-! ### Closed terms and the conditional -/

namespace Expression

theorem mem_freeNames_of_isFree (n : String) (t : Expression) (h : isFree n t = true) :
    n ∈ freeNames t := by
  induction t with
  | Name m => simpa [isFree, freeNames] using h
  | Function v b ih =>
    simp only [isFree, Bool.and_eq_true, Bool.not_eq_true', beq_eq_false_iff_ne, ne_eq] at h
    simp only [freeNames, List.mem_filter, Bool.not_eq_true', beq_eq_false_iff_ne, ne_eq]
    exact ⟨ih h.2, h.1⟩
  | Application f a ihf iha =>
    simp only [isFree, Bool.or_eq_true] at h
    simp only [freeNames, List.mem_append]
    exact h.imp ihf iha

theorem isFree_of_isClosed (n : String) (t : Expression) (h : isClosed t = true) :
    isFree n t = false := by
  cases hf : isFree n t with
  | false => rfl
  | true =>
    have hm := mem_freeNames_of_isFree n t hf
    simp only [isClosed, List.isEmpty_iff] at h
    rw [h] at hm
    cases hm

theorem isName_of_isClosed (t : Expression) (h : isClosed t = true) : isName t = false := by
  cases t with
  | Name m => simp [isClosed, freeNames] at h
  | Function v b => rfl
  | Application f a => rfl

/-- Substituting a term that is not a `Name` into a closed term changes nothing. -/
theorem replace_closed (n : String) (r t : Expression) (ht : isClosed t = true)
    (hr : isName r = false) : replace n r t = (false, t) :=
  replace_of_not_isFree n r t (isFree_of_isClosed n t ht) (collidesIn_of_not_isName r t hr)

end Expression

theorem Expressions.cond_steps (A B S : Expression) (hA : isClosed A = true)
    (hB : isClosed B = true) (hS : isName S = false) :
    NreduceN 3 (Application (Application (Application Expressions.cond A) B) S) =
      some (Application (Application S A) B) := by
  have hnA := isName_of_isClosed A hA
  have hnB := isName_of_isClosed B hB
  have h1 : Nreduce1 (Application (Application (Application Expressions.cond A) B) S) =
      some (Application (Application
        (Function "e2" (Function "c"
          (Application (Application (Name "c") A) (Name "e2")))) B) S) := by
    simp [Nreduce1, Expression.apply, Breduce, Expressions.cond, replace_Function,
      replace_Application, replace_Name, collides_of_not_isName A _ hnA]
  have h2 : Nreduce1 (Application (Application
        (Function "e2" (Function "c"
          (Application (Application (Name "c") A) (Name "e2")))) B) S) =
      some (Application (Function "c" (Application (Application (Name "c") A) B)) S) := by
    simp [Nreduce1, Expression.apply, Breduce, replace_Function,
      replace_Application, replace_Name, collides_of_not_isName B _ hnB,
      replace_closed "e2" B A hA hnB]
  have h3 : Nreduce1 (Application (Function "c" (Application (Application (Name "c") A) B)) S) =
      some (Application (Application S A) B) := by
    simp [Nreduce1, Expression.apply, Breduce, replace_Application, replace_Name,
      replace_closed "c" S A hA hS, replace_closed "c" S B hB hS]
  simp [NreduceN, h1, h2, h3]

theorem Expressions.select_first_steps (A B : Expression) (hA : isClosed A = true)
    (hB : isClosed B = true) :
    NreduceN 2 (Application (Application Expressions.select_first A) B) = some A := by
  have hnA := isName_of_isClosed A hA
  have hnB := isName_of_isClosed B hB
  have h1 : Nreduce1 (Application (Application Expressions.select_first A) B) =
      some (Application (Function "y" A) B) := by
    simp [Nreduce1, Expression.apply, Breduce, Expressions.select_first, replace_Function,
      replace_Name, collides_of_not_isName A _ hnA]
  have h2 : Nreduce1 (Application (Function "y" A) B) = some A := by
    simp [Nreduce1, Expression.apply, Breduce, replace_closed "y" B A hA hnB]
  simp [NreduceN, h1, h2]

theorem Expressions.select_second_steps (A B : Expression) (hA : isClosed A = true) :
    NreduceN 2 (Application (Application Expressions.select_second A) B) = some B := by
  have hnA := isName_of_isClosed A hA
  have h1 : Nreduce1 (Application (Application Expressions.select_second A) B) =
      some (Application (Function "y" (Name "y")) B) := by
    simp [Nreduce1, Expression.apply, Breduce, Expressions.select_second, replace_Function,
      replace_Name, collides_of_not_isName A _ hnA]
  have h2 : Nreduce1 (Application (Function "y" (Name "y")) B) = some B := by
    simp [Nreduce1, Expression.apply, Breduce, replace_Name]
  simp [NreduceN, h1, h2]

theorem NreduceN_add (m n : Nat) : ∀ (t u : Expression), NreduceN m t = some u →
    NreduceN (m + n) t = NreduceN n u := by
  induction m with
  | zero => intro t u h; simp [NreduceN] at h; simp [h]
  | succ m ih =>
    intro t u h
    rw [Nat.add_right_comm]
    simp only [NreduceN] at h ⊢
    cases h1 : Nreduce1 t with
    | none => simp [h1] at h
    | some v =>
      simp only [h1] at h ⊢
      exact ih v u h

namespace Parser

/-- What a successful `parseIfThenElse` / `parseTypedIfThenElse` has done: read the
first keyword, parsed the condition `C`, read the second keyword, parsed `A`,
read the third keyword, parsed `B`, and built `(((conditional A) B) C)`. -/
theorem parseConditional_some (kwIf kwThen kwElse : TokenType) (conditional : Expression)
    (pe : ParseFun) (ctx : ParseContext) (is is3 : WIStream) (e : Expression)
    (h : parseConditional kwIf kwThen kwElse conditional pe ctx is = some (is3, some e)) :
    ∃ (C A B : Expression) (is1 is2 : WIStream),
      (readToken is.tellg.1 Token.invalid).2.type = kwIf ∧
      pe ⟨ctx.syms, ParentPos.EXPRESSION⟩ (readToken is.tellg.1 Token.invalid).1 =
        some (is1, some C) ∧
      (readToken is1 (readToken is.tellg.1 Token.invalid).2).2.type = kwThen ∧
      pe ⟨ctx.syms, ParentPos.EXPRESSION⟩
          (readToken is1 (readToken is.tellg.1 Token.invalid).2).1 = some (is2, some A) ∧
      (readToken is2 (readToken is1 (readToken is.tellg.1 Token.invalid).2).2).2.type = kwElse ∧
      pe ⟨ctx.syms, ParentPos.EXPRESSION⟩
          (readToken is2 (readToken is1 (readToken is.tellg.1 Token.invalid).2).2).1 =
        some (is3, some B) ∧
      e = Application (Application (Application conditional A) B) C := by
  unfold parseConditional at h
  simp only [] at h
  split at h
  · split at h
    · rename_i hg1 hk1
      split at h
      · simp at h
      · simp at h
      · rename_i is1 C hC
        split at h
        · split at h
          · rename_i hg2 hk2
            split at h
            · simp at h
            · simp at h
            · rename_i is2 A hA
              split at h
              · split at h
                · rename_i hg3 hk3
                  split at h
                  · simp at h
                  · simp at h
                  · rename_i is4 B hB
                    simp only [Option.some.injEq, Prod.mk.injEq] at h
                    obtain ⟨h1, h2⟩ := h
                    subst h1
                    simp only [Bool.and_eq_true, decide_eq_true_eq] at hk1 hk2 hk3
                    exact ⟨C, A, B, is1, is2, hk1.2, hC, hk2.2, hA, hk3.2, hB, h2.symm⟩
                · simp at h
              · simp at h
          · simp at h
        · simp at h
    · simp at h
  · simp at h

end Parser

/-! ### The lexer -/

namespace Parser

theorem isWordChar_not_isspace (c : Char) (h : isWordChar c = true) : isspace c = false := by
  cases hs : isspace c with
  | false => rfl
  | true =>
    simp only [isspace, Bool.or_eq_true, beq_iff_eq] at hs
    rcases hs with ((((hs | hs) | hs) | hs) | hs) | hs <;> subst hs <;> revert h <;> decide

theorem isWordChar_ne (c x : Char) (h : isWordChar c = true) (hx : isWordChar x = false) :
    c ≠ x := by
  intro e
  rw [e, hx] at h
  cases h

theorem dropWhile_isspace (ws : List Char) (hws : ws.all isspace = true) (c : Char)
    (hc : isspace c = false) (r : List Char) :
    (ws ++ c :: r).dropWhile isspace = c :: r := by
  induction ws with
  | nil => simp [List.dropWhile, hc]
  | cons w ws ih =>
    simp only [List.all_cons, Bool.and_eq_true] at hws
    simp [List.dropWhile, hws.1, ih hws.2]

theorem dropWhile_isspace_all (ws : List Char) (hws : ws.all isspace = true) :
    ws.dropWhile isspace = [] := by
  induction ws with
  | nil => rfl
  | cons w ws ih =>
    simp only [List.all_cons, Bool.and_eq_true] at hws
    simp [List.dropWhile, hws.1, ih hws.2]

theorem wordLoop_stop (d : Char) (acc r : List Char) (hd : isWordChar d = false) :
    wordLoop d acc r = (acc, d :: r) := by
  simp only [isWordChar, Bool.or_eq_false_iff, beq_eq_false_iff_ne, ne_eq] at hd
  unfold wordLoop
  simp [hd.1, hd.2]

theorem wordLoop_end (c : Char) (acc : List Char) (hc : isWordChar c = true) :
    wordLoop c acc [] = (acc ++ [c], []) := by
  simp only [isWordChar, Bool.or_eq_true, beq_iff_eq] at hc
  unfold wordLoop
  rcases hc with hc | hc <;> simp [hc]

theorem wordLoop_step (c d : Char) (acc r : List Char) (hc : isWordChar c = true) :
    wordLoop c acc (d :: r) = wordLoop d (acc ++ [c]) r := by
  simp only [isWordChar, Bool.or_eq_true, beq_iff_eq] at hc
  conv => lhs; unfold wordLoop
  rcases hc with hc | hc <;> simp [hc]

/-- The word loop gathers a run of word characters up to the delimiter. -/
theorem wordLoop_word (w : List Char) : ∀ (c : Char) (acc r : List Char),
    isWordChar c = true → w.all isWordChar = true → delimited r = true →
    wordLoop c acc (w ++ r) = (acc ++ c :: w, r) := by
  induction w with
  | nil =>
    intro c acc r hc _ hr
    cases r with
    | nil => simpa using wordLoop_end c acc hc
    | cons d r =>
      have hd : isWordChar d = false := by simpa [delimited] using hr
      rw [List.nil_append, wordLoop_step c d acc r hc, wordLoop_stop d _ r hd]
  | cons d w ih =>
    intro c acc r hc hw hr
    simp only [List.all_cons, Bool.and_eq_true] at hw
    rw [List.cons_append, wordLoop_step c d acc _ hc, ih d (acc ++ [c]) r hw.1 hw.2 hr]
    simp

/-- A good stream: written out. -/
theorem WIStream.eq_of_good (is : WIStream) (h : is.good = true) :
    is = ⟨is.rest, false, false⟩ := by
  cases is with
  | mk rest e f =>
    simp only [WIStream.good, Bool.and_eq_true, Bool.not_eq_true'] at h
    simp [h.1, h.2]

/-- Reading a word: after optional whitespace, a non-empty run of word characters
followed by a delimiter is returned whole, classified, and the stream is good
and positioned at the delimiter. -/
theorem readToken_word (ws w r : List Char) (tok : Token)
    (hws : ws.all isspace = true) (hne : w ≠ []) (hw : w.all isWordChar = true)
    (hr : delimited r = true) :
    readToken ⟨ws ++ w ++ r, false, false⟩ tok = (⟨r, false, false⟩, ⟨classify w, w⟩) := by
  cases w with
  | nil => exact absurd rfl hne
  | cons c w =>
    simp only [List.all_cons, Bool.and_eq_true] at hw
    have hsp := isWordChar_not_isspace c hw.1
    have h1 := isWordChar_ne c 'λ' hw.1 (by decide)
    have h2 := isWordChar_ne c '.' hw.1 (by decide)
    have h3 := isWordChar_ne c '(' hw.1 (by decide)
    have h4 := isWordChar_ne c ')' hw.1 (by decide)
    have h5 := isWordChar_ne c '=' hw.1 (by decide)
    have hd : (ws ++ (c :: w) ++ r).dropWhile isspace = c :: (w ++ r) := by
      rw [List.append_assoc, List.cons_append]
      exact dropWhile_isspace ws hws c hsp (w ++ r)
    simp only [readToken, WIStream.good, getChar, Bool.not_false, Bool.and_self, if_true, hd,
      h1, h2, h3, h4, h5, if_false]
    rw [wordLoop_word w c [] r hw.1 hw.2 hr]
    simp

/-- Reading one of the single-character tokens after optional whitespace. -/
theorem readToken_single (ws r : List Char) (c : Char) (tok : Token)
    (hws : ws.all isspace = true) (hc : isspace c = false) (ty : TokenType)
    (hty : (if c = 'λ' then some TokenType.LAMBDA
      else if c = '.' then some TokenType.DOT
      else if c = '(' then some TokenType.L_PAREN
      else if c = ')' then some TokenType.R_PAREN
      else if c = '=' then some TokenType.EQUALS else none) = some ty) :
    readToken ⟨ws ++ c :: r, false, false⟩ tok = (⟨r, false, false⟩, ⟨ty, [c]⟩) := by
  have hd := dropWhile_isspace ws hws c hc r
  simp only [readToken, WIStream.good, getChar, Bool.not_false, Bool.and_self, if_true, hd]
  by_cases h1 : c = 'λ'
  · simp [h1] at hty ⊢; exact hty
  · by_cases h2 : c = '.'
    · simp [h2] at hty ⊢; exact hty
    · by_cases h3 : c = '('
      · simp [h3] at hty ⊢; exact hty
      · by_cases h4 : c = ')'
        · simp [h4] at hty ⊢; exact hty
        · by_cases h5 : c = '='
          · simp [h5] at hty ⊢; exact hty
          · simp [h1, h2, h3, h4, h5] at hty

theorem classify_identifier (w : List Char) (h : isIdentifier w = true) :
    classify w = TokenType.OBJECT := by
  simp only [isIdentifier, keywords, Bool.and_eq_true, Bool.not_eq_true', List.contains_eq_any_beq,
    List.any_cons, List.any_nil, Bool.or_false, Bool.or_eq_false_iff, beq_eq_false_iff_ne,
    ne_eq] at h
  obtain ⟨⟨⟨_, _⟩, hk⟩, hd⟩ := h
  obtain ⟨k1, k2, k3, k4, k5, k6, k7, k8⟩ := hk
  simp [classify, k1, k2, k3, k4, k5, k6, k7, k8, hd]

theorem isIdentifier_word (w : List Char) (h : isIdentifier w = true) :
    w ≠ [] ∧ w.all isWordChar = true := by
  simp only [isIdentifier, Bool.and_eq_true, Bool.not_eq_true', List.isEmpty_eq_false] at h
  exact ⟨h.1.1.1, h.1.1.2⟩

/-- Reading an identifier. -/
theorem readToken_identifier (ws w r : List Char) (tok : Token)
    (hws : ws.all isspace = true) (hw : isIdentifier w = true) (hr : delimited r = true) :
    readToken ⟨ws ++ w ++ r, false, false⟩ tok =
      (⟨r, false, false⟩, ⟨TokenType.OBJECT, w⟩) := by
  rw [readToken_word ws w r tok hws (isIdentifier_word w hw).1 (isIdentifier_word w hw).2 hr,
    classify_identifier w hw]

end Parser

/-! ### The alternatives of `parse<Expression>` on a known first token -/

namespace Parser

theorem parseConditional_reject (kwIf kwThen kwElse : TokenType) (conditional : Expression)
    (pe : ParseFun) (ctx : ParseContext) (rest r1 : List Char) (tok : Token)
    (h : readToken ⟨rest, false, false⟩ Token.invalid = (⟨r1, false, false⟩, tok))
    (hk : tok.type ≠ kwIf) :
    parseConditional kwIf kwThen kwElse conditional pe ctx ⟨rest, false, false⟩ =
      some (⟨rest, false, false⟩, none) := by
  simp [parseConditional, WIStream.tellg, WIStream.good, WIStream.rdstate, h, hk, rewind,
    WIStream.setstate, WIStream.seekg]

theorem parseInt_reject (rest r1 : List Char) (tok : Token)
    (h : readToken ⟨rest, false, false⟩ Token.invalid = (⟨r1, false, false⟩, tok))
    (hk : tok.type ≠ TokenType.INTLITERAL) :
    parseInt ⟨rest, false, false⟩ = some (⟨rest, false, false⟩, none) := by
  simp [parseInt, WIStream.tellg, WIStream.good, WIStream.rdstate, h, hk, rewind,
    WIStream.setstate, WIStream.seekg, WIStream.fail]

theorem substitute_reject (pe : ParseFun) (ctx : ParseContext) (rest r1 : List Char)
    (tok : Token)
    (h : readToken ⟨rest, false, false⟩ Token.invalid = (⟨r1, false, false⟩, tok))
    (hk : tok.type ≠ TokenType.OBJECT ∨ ctx.syms.lookup (to_bytes tok.val) = none) :
    substitute pe ctx ⟨rest, false, false⟩ = some (⟨rest, false, false⟩, none) := by
  rcases hk with hk | hk
  · simp [substitute, WIStream.tellg, WIStream.good, WIStream.rdstate, h, hk, rewind,
      WIStream.setstate, WIStream.seekg, WIStream.fail]
  · by_cases ht : tok.type = TokenType.OBJECT
    · simp [substitute, WIStream.tellg, WIStream.good, WIStream.rdstate, h, hk, ht, rewind,
        WIStream.setstate, WIStream.seekg, WIStream.fail]
    · simp [substitute, WIStream.tellg, WIStream.good, WIStream.rdstate, h, ht, rewind,
        WIStream.setstate, WIStream.seekg, WIStream.fail]

theorem parseName_reject (rest r1 : List Char) (tok : Token)
    (h : readToken ⟨rest, false, false⟩ Token.invalid = (⟨r1, false, false⟩, tok))
    (hk : tok.type ≠ TokenType.OBJECT) :
    parseName ⟨rest, false, false⟩ = (⟨rest, false, false⟩, none) := by
  simp [parseName, WIStream.tellg, WIStream.good, WIStream.rdstate, h, hk, rewind,
    WIStream.setstate, WIStream.seekg, WIStream.fail]

theorem parseName_accept (rest r1 : List Char) (tok : Token)
    (h : readToken ⟨rest, false, false⟩ Token.invalid = (⟨r1, false, false⟩, tok))
    (hk : tok.type = TokenType.OBJECT) :
    parseName ⟨rest, false, false⟩ = (⟨r1, false, false⟩, some (Name (to_bytes tok.val))) := by
  simp [parseName, WIStream.tellg, WIStream.good, WIStream.rdstate, h, hk, WIStream.fail]

theorem parseFunctionStep_reject (pf pe : ParseFun) (ctx : ParseContext) (rest r1 : List Char)
    (tok : Token)
    (h : readToken ⟨rest, false, false⟩ Token.invalid = (⟨r1, false, false⟩, tok))
    (hk : tok.type ≠ TokenType.LAMBDA) :
    parseFunctionStep pf pe ctx ⟨rest, false, false⟩ = some (⟨rest, false, false⟩, none) := by
  simp [parseFunctionStep, WIStream.tellg, WIStream.good, WIStream.rdstate, h, hk, rewind,
    WIStream.setstate, WIStream.seekg]

theorem parseApplication_reject (pe : ParseFun) (ctx : ParseContext) (rest r1 : List Char)
    (tok : Token)
    (h : readToken ⟨rest, false, false⟩ Token.invalid = (⟨r1, false, false⟩, tok))
    (hk : tok.type ≠ TokenType.L_PAREN) :
    parseApplication pe ctx ⟨rest, false, false⟩ = some (⟨rest, false, false⟩, none) := by
  simp [parseApplication, WIStream.tellg, WIStream.good, WIStream.rdstate, h, hk, rewind,
    WIStream.setstate, WIStream.seekg]

/-- On a first token that is an identifier not bound in the table, `parse<Expression>`
returns the `Name`. -/
theorem parseExpressionStep_unbound (pf pe : ParseFun) (ctx : ParseContext)
    (rest r1 : List Char) (tok : Token)
    (h : readToken ⟨rest, false, false⟩ Token.invalid = (⟨r1, false, false⟩, tok))
    (hk : tok.type = TokenType.OBJECT) (hl : ctx.syms.lookup (to_bytes tok.val) = none) :
    parseExpressionStep pf pe ctx ⟨rest, false, false⟩ =
      some (⟨r1, false, false⟩, some (Name (to_bytes tok.val))) := by
  simp only [parseExpressionStep, parseIfThenElse, parseTypedIfThenElse]
  rw [parseConditional_reject _ _ _ _ pe ctx rest r1 tok h (by rw [hk]; decide)]
  simp only []
  rw [parseConditional_reject _ _ _ _ pe ctx rest r1 tok h (by rw [hk]; decide)]
  simp only []
  rw [parseInt_reject rest r1 tok h (by rw [hk]; decide)]
  simp only []
  rw [substitute_reject pe ctx rest r1 tok h (Or.inr hl)]
  simp only []
  rw [parseName_accept rest r1 tok h hk]

/-- On a first token `λ`, `parse<Expression>` returns what `parse<Function>`
returns when that succeeds. -/
theorem parseExpressionStep_lambda (pf pe : ParseFun) (ctx : ParseContext)
    (rest r1 : List Char) (tok : Token) (is6 : WIStream) (e : Expression)
    (h : readToken ⟨rest, false, false⟩ Token.invalid = (⟨r1, false, false⟩, tok))
    (hk : tok.type = TokenType.LAMBDA)
    (hs : parseFunctionStep pf pe ctx ⟨rest, false, false⟩ = some (is6, some e)) :
    parseExpressionStep pf pe ctx ⟨rest, false, false⟩ = some (is6, some e) := by
  simp only [parseExpressionStep, parseIfThenElse, parseTypedIfThenElse]
  rw [parseConditional_reject _ _ _ _ pe ctx rest r1 tok h (by rw [hk]; decide)]
  simp only []
  rw [parseConditional_reject _ _ _ _ pe ctx rest r1 tok h (by rw [hk]; decide)]
  simp only []
  rw [parseInt_reject rest r1 tok h (by rw [hk]; decide)]
  simp only []
  rw [substitute_reject pe ctx rest r1 tok h (Or.inl (by rw [hk]; decide))]
  simp only []
  rw [parseName_reject rest r1 tok h (by rw [hk]; decide)]
  simp only []
  rw [hs]

/-- On a first token `(`, `parse<Expression>` returns what `parse<Application>`
returns. -/
theorem parseExpressionStep_lparen (pf pe : ParseFun) (ctx : ParseContext)
    (rest r1 : List Char) (tok : Token) (res : ParseResult)
    (h : readToken ⟨rest, false, false⟩ Token.invalid = (⟨r1, false, false⟩, tok))
    (hk : tok.type = TokenType.L_PAREN)
    (hs : parseApplication pe ctx ⟨rest, false, false⟩ = some res) :
    parseExpressionStep pf pe ctx ⟨rest, false, false⟩ = some res := by
  simp only [parseExpressionStep, parseIfThenElse, parseTypedIfThenElse]
  rw [parseConditional_reject _ _ _ _ pe ctx rest r1 tok h (by rw [hk]; decide)]
  simp only []
  rw [parseConditional_reject _ _ _ _ pe ctx rest r1 tok h (by rw [hk]; decide)]
  simp only []
  rw [parseInt_reject rest r1 tok h (by rw [hk]; decide)]
  simp only []
  rw [substitute_reject pe ctx rest r1 tok h (Or.inl (by rw [hk]; decide))]
  simp only []
  rw [parseName_reject rest r1 tok h (by rw [hk]; decide)]
  simp only []
  rw [parseFunctionStep_reject pf pe ctx rest r1 tok h (by rw [hk]; decide)]
  simp only []
  rw [hs]
  obtain ⟨is7, e⟩ := res
  cases e <;> rfl

end Parser

/-! ### Parsing the printed form of a term -/

namespace Parser

theorem parseExpression_succ (fuel : Nat) :
    parseExpression (fuel + 1) = parseExpressionStep (parseFunction fuel) (parseExpression fuel) :=
  rfl

theorem parseFunction_succ (fuel : Nat) :
    parseFunction (fuel + 1) = parseFunctionStep (parseFunction fuel) (parseExpression fuel) :=
  rfl

theorem delimited_cons (c : Char) (r : List Char) (h : isWordChar c = false) :
    delimited (c :: r) = true := by
  simp [delimited, h]

theorem print_Function_data (v : String) (b : Expression) :
    (print (Function v b)).data = 'λ' :: (v.data ++ '.' :: (print b).data) := by
  simp [print, String.data_append]

theorem print_Application_data (f a : Expression) :
    (print (Application f a)).data =
      '(' :: ((print f).data ++ ' ' :: ((print a).data ++ [')'])) := by
  simp [print, String.data_append]

/-- With an empty symbol table, the printed form of a well-named term, after
optional whitespace and before a delimiter, is parsed back to the term; and
`parse<Function>` accepts it exactly when the term is an abstraction. -/
theorem parse_print (t : Expression) : wellNamed t = true →
    ∀ (fuel : Nat), t.size ≤ fuel → ∀ (ctx : ParseContext), ctx.syms = [] →
    ∀ (ws r : List Char), ws.all isspace = true → delimited r = true →
      parseExpression fuel ctx ⟨ws ++ (print t).data ++ r, false, false⟩ =
        some (⟨r, false, false⟩, some t) ∧
      parseFunction fuel ctx ⟨ws ++ (print t).data ++ r, false, false⟩ =
        some (if isFunction t = true then (⟨r, false, false⟩, some t)
          else (⟨ws ++ (print t).data ++ r, false, false⟩, none)) := by
  induction t with
  | Name m =>
    intro hwn fuel hfuel ctx hsyms ws r hws hr
    simp only [wellNamed] at hwn
    have hread := readToken_identifier ws m.data r Token.invalid hws hwn hr
    cases fuel with
    | zero => simp [size] at hfuel
    | succ n =>
      constructor
      · rw [parseExpression_succ]
        exact parseExpressionStep_unbound _ _ ctx _ _ _ hread rfl (by simp [hsyms])
      · rw [parseFunction_succ]
        simpa [isFunction] using
          parseFunctionStep_reject _ _ ctx _ _ _ hread (by simp)
  | Function v b ih =>
    intro hwn fuel hfuel ctx hsyms ws r hws hr
    simp only [wellNamed, Bool.and_eq_true] at hwn
    cases fuel with
    | zero => simp [size] at hfuel
    | succ n =>
      simp only [size] at hfuel
      have hn : b.size ≤ n := by omega
      have ihb := ih hwn.2 n hn ⟨ctx.syms, ParentPos.EXPRESSION⟩ hsyms [] r rfl hr
      simp only [List.nil_append] at ihb
      have htext : ws ++ (print (Function v b)).data ++ r =
          ws ++ 'λ' :: (v.data ++ ('.' :: ((print b).data ++ r))) := by
        rw [print_Function_data]; simp
      have h1 : readToken ⟨ws ++ 'λ' :: (v.data ++ ('.' :: ((print b).data ++ r))), false, false⟩
          Token.invalid =
          (⟨v.data ++ ('.' :: ((print b).data ++ r)), false, false⟩,
            ⟨TokenType.LAMBDA, ['λ']⟩) :=
        readToken_single ws _ 'λ' _ hws (by decide) _ (by simp)
      have h2 : readToken ⟨v.data ++ ('.' :: ((print b).data ++ r)), false, false⟩
          ⟨TokenType.LAMBDA, ['λ']⟩ =
          (⟨'.' :: ((print b).data ++ r), false, false⟩, ⟨TokenType.OBJECT, v.data⟩) := by
        have := readToken_identifier [] v.data ('.' :: ((print b).data ++ r))
          ⟨TokenType.LAMBDA, ['λ']⟩ rfl hwn.1 (delimited_cons _ _ (by decide))
        simpa using this
      have h3 : readToken ⟨'.' :: ((print b).data ++ r), false, false⟩
          ⟨TokenType.OBJECT, v.data⟩ =
          (⟨(print b).data ++ r, false, false⟩, ⟨TokenType.DOT, ['.']⟩) := by
        have := readToken_single [] ((print b).data ++ r) '.' ⟨TokenType.OBJECT, v.data⟩ rfl
          (by decide) TokenType.DOT (by decide)
        simpa using this
      have hstep : parseFunctionStep (parseFunction n) (parseExpression n) ctx
          ⟨ws ++ 'λ' :: (v.data ++ ('.' :: ((print b).data ++ r))), false, false⟩ =
          some (⟨r, false, false⟩, some (Function v b)) := by
        simp only [parseFunctionStep, WIStream.tellg, WIStream.good, Bool.not_false,
          Bool.and_self, if_true, h1, h2, h3, Option.isSome_some, decide_True, ihb.2,
          to_bytes]
        by_cases hb : isFunction b = true
        · simp [hb]
        · simp [hb, ihb.1]
      rw [htext]
      constructor
      · rw [parseExpression_succ]
        exact parseExpressionStep_lambda _ _ ctx _ _ _ _ _ h1 rfl hstep
      · rw [parseFunction_succ, hstep]
        simp [isFunction]
  | Application f a ihf iha =>
    intro hwn fuel hfuel ctx hsyms ws r hws hr
    simp only [wellNamed, Bool.and_eq_true] at hwn
    cases fuel with
    | zero => simp [size] at hfuel
    | succ n =>
      simp only [size] at hfuel
      have hnf : f.size ≤ n := by omega
      have hna : a.size ≤ n := by omega
      have ihf2 := (ihf hwn.1 n hnf ⟨ctx.syms, ParentPos.APPLICATION_EXPR⟩ hsyms []
        (' ' :: ((print a).data ++ (')' :: r))) rfl (delimited_cons _ _ (by decide))).1
      have iha2 := (iha hwn.2 n hna ctx hsyms [' '] (')' :: r) (by decide)
        (delimited_cons _ _ (by decide))).1
      simp only [List.nil_append] at ihf2
      simp only [List.singleton_append, List.cons_append, List.nil_append] at iha2
      have htext : ws ++ (print (Application f a)).data ++ r =
          ws ++ '(' :: ((print f).data ++ (' ' :: ((print a).data ++ (')' :: r)))) := by
        rw [print_Application_data]; simp
      have h1 : readToken
          ⟨ws ++ '(' :: ((print f).data ++ (' ' :: ((print a).data ++ (')' :: r)))), false, false⟩
          Token.invalid =
          (⟨(print f).data ++ (' ' :: ((print a).data ++ (')' :: r))), false, false⟩,
            ⟨TokenType.L_PAREN, ['(']⟩) :=
        readToken_single ws _ '(' _ hws (by decide) _ (by decide)
      have h2 : readToken ⟨')' :: r, false, false⟩ ⟨TokenType.L_PAREN, ['(']⟩ =
          (⟨r, false, false⟩, ⟨TokenType.R_PAREN, [')']⟩) := by
        have := readToken_single [] r ')' ⟨TokenType.L_PAREN, ['(']⟩ rfl (by decide)
          TokenType.R_PAREN (by decide)
        simpa using this
      have hstep : parseApplication (parseExpression n) ctx
          ⟨ws ++ '(' :: ((print f).data ++ (' ' :: ((print a).data ++ (')' :: r)))), false, false⟩ =
          some (⟨r, false, false⟩, some (Application f a)) := by
        simp [parseApplication, WIStream.tellg, WIStream.good, h1, h2, ihf2, iha2,
          WIStream.fail]
      rw [htext]
      constructor
      · rw [parseExpression_succ]
        exact parseExpressionStep_lparen _ _ ctx _ _ _ _ h1 rfl hstep
      · rw [parseFunction_succ]
        simpa [isFunction] using
          parseFunctionStep_reject _ _ ctx _ _ _ h1 (by simp)

end Parser

namespace Parser

/-- The first token of the printed form of a well-named term: read on a good
stream, it leaves the stream good and is neither `def` nor `rec`. -/
theorem readToken_print (t : Expression) (hwn : wellNamed t = true) (r : List Char)
    (hr : delimited r = true) :
    ∃ (r1 : List Char) (tok : Token),
      readToken ⟨(print t).data ++ r, false, false⟩ Token.invalid = (⟨r1, false, false⟩, tok) ∧
      tok.type ≠ TokenType.DEF ∧ tok.type ≠ TokenType.REC := by
  cases t with
  | Name m =>
    simp only [wellNamed] at hwn
    have h := readToken_identifier [] m.data r Token.invalid rfl hwn hr
    exact ⟨_, _, by simpa [print] using h, by simp, by simp⟩
  | Function v b =>
    have h := readToken_single [] (v.data ++ '.' :: (print b).data ++ r) 'λ' Token.invalid rfl
      (by decide) TokenType.LAMBDA (by simp)
    refine ⟨v.data ++ '.' :: (print b).data ++ r, ⟨TokenType.LAMBDA, ['λ']⟩, ?_, ?_, ?_⟩
    · rw [print_Function_data]; simpa using h
    · simp
    · simp
  | Application f a =>
    have h := readToken_single [] ((print f).data ++ ' ' :: ((print a).data ++ [')']) ++ r) '('
      Token.invalid rfl (by decide) TokenType.L_PAREN (by decide)
    refine ⟨(print f).data ++ ' ' :: ((print a).data ++ [')']) ++ r,
      ⟨TokenType.L_PAREN, ['(']⟩, ?_, ?_, ?_⟩
    · rw [print_Application_data]; simpa using h
    · simp
    · simp

end Parser

/-! ### Claim on the round trip through the printer and the parser -/

/-- Claim C19. For every term `t` whose names and bound variables are
identifiers (non-empty, alphanumerics or underscore, no keyword, not all digits),
`parse1` with an empty symbol table on the text `print t` returns, for every fuel
of at least `t.size`, the expression unit `("", t)` with the text consumed and
the table still empty; the next call then reports the end of the input. -/
theorem parse1_print (t : Expression) (hwn : wellNamed t = true) (fuel : Nat)
    (hfuel : t.size ≤ fuel) :
    parse1 fuel (ExpressionBuilder.create (print t) []) =
      some (Except.ok ("", some t), ⟨⟨[], false, false⟩, []⟩) ∧
    parse1 fuel ⟨⟨[], false, false⟩, []⟩ =
      some (Except.ok ("_", none), ⟨⟨[], true, true⟩, []⟩) := by
  constructor
  · obtain ⟨r1, tok, hread, hdef, hrec⟩ := readToken_print t hwn [] rfl
    have hparse := (parse_print t hwn fuel hfuel ⟨[], ParentPos.EXPRESSION⟩ rfl [] [] rfl rfl).1
    simp only [List.nil_append, List.append_nil] at hparse hread
    simp [parse1, ExpressionBuilder.create, WIStream.tellg, WIStream.good, WIStream.eof,
      WIStream.rdstate, hread, hdef, hrec, rewind, WIStream.setstate, WIStream.seekg, hparse]
  · simp [parse1, WIStream.tellg, WIStream.good, WIStream.eof, readToken, getChar]

/-- Witness for Claim C19: the theorem at `t = λx.(x y)` with fuel 4. -/
theorem parse1_print_witness :
    wellNamed (Function "x" (Application (Name "x") (Name "y"))) = true ∧
    parse1 4 (ExpressionBuilder.create
        (print (Function "x" (Application (Name "x") (Name "y")))) []) =
      some (Except.ok ("", some (Function "x" (Application (Name "x") (Name "y")))),
        ⟨⟨[], false, false⟩, []⟩) :=
  ⟨by decide,
    (parse1_print (Function "x" (Application (Name "x") (Name "y"))) (by decide) 4
      (by decide)).1⟩

/-! ### Integer literals -/

namespace Parser

end Parser

namespace Parser

theorem lookup_assign_self (table : SymbolTable) (name : String) (v : Expression × Nat) :
    (table.assign name v).lookup name = some v := by
  simp [SymbolTable.assign, List.lookup]

theorem lookup_filter_ne (table : SymbolTable) (name g : String) (h : g ≠ name) :
    (table.filter (fun e => !(e.1 == name))).lookup g = table.lookup g := by
  induction table with
  | nil => rfl
  | cons e es ih =>
    obtain ⟨k, v⟩ := e
    by_cases hk : k = name
    · subst hk
      have hg : (g == k) = false := by simpa using h
      simp [List.filter, List.lookup, hg, ih]
    · have hk2 : (k == name) = false := by simpa using hk
      simp only [List.filter, hk2, Bool.not_false, List.lookup]
      cases hgk : g == k with
      | true => rfl
      | false => exact ih

theorem lookup_assign_ne (table : SymbolTable) (name g : String) (v : Expression × Nat)
    (h : g ≠ name) : (table.assign name v).lookup g = table.lookup g := by
  have hg : (g == name) = false := by simpa using h
  simp only [SymbolTable.assign, List.lookup, hg]
  exact lookup_filter_ne table name g h

theorem delimited_paramsText (ps : List String) (x : List Char) :
    delimited (paramsText ps ++ ' ' :: x) = true := by
  cases ps with
  | nil => exact delimited_cons _ _ (by decide)
  | cons p ps => exact delimited_cons _ _ (by decide)

/-- The parameter loop reads the identifiers up to the `=` sign. -/
theorem paramLoop_params (body : List Char) (ps : List String) :
    (∀ p ∈ ps, isIdentifier p.data = true) →
    ∀ (fuel : Nat), ps.length + 1 ≤ fuel → ∀ (tok0 : Token) (acc : List String),
      paramLoop fuel (readToken ⟨paramsText ps ++ ' ' :: '=' :: body, false, false⟩ tok0).1
        (readToken ⟨paramsText ps ++ ' ' :: '=' :: body, false, false⟩ tok0).2 acc =
      some (⟨body, false, false⟩, ⟨TokenType.EQUALS, ['=']⟩, acc ++ ps) := by
  induction ps with
  | nil =>
    intro _ fuel hfuel tok0 acc
    have h := readToken_single [' '] body '=' tok0 (by decide) (by decide) TokenType.EQUALS
      (by decide)
    simp only [List.singleton_append] at h
    cases fuel with
    | zero => simp at hfuel
    | succ n => simp [paramsText, h, paramLoop, WIStream.good]
  | cons p ps ih =>
    intro hps fuel hfuel tok0 acc
    have hp : isIdentifier p.data = true := hps p (List.mem_cons_self _ _)
    have h := readToken_identifier [' '] p.data (paramsText ps ++ ' ' :: '=' :: body) tok0
      (by decide) hp (delimited_paramsText ps _)
    simp only [List.singleton_append, List.cons_append, List.nil_append] at h
    cases fuel with
    | zero => simp at hfuel
    | succ n =>
      simp only [List.length_cons] at hfuel
      have ih2 := ih (fun q hq => hps q (List.mem_cons_of_mem _ hq)) n (by omega)
        ⟨TokenType.OBJECT, p.data⟩ (acc ++ [p])
      simp only [paramsText, List.append_assoc, List.cons_append, h, paramLoop, WIStream.good,
        Bool.not_false, Bool.and_self, decide_True, if_true, to_bytes]
      rw [ih2]
      simp

theorem classify_definitionKeyword (isRec : Bool) :
    classify (definitionKeyword isRec) =
      if isRec then TokenType.REC else TokenType.DEF := by
  cases isRec <;> decide

theorem definitionKeyword_word (isRec : Bool) :
    definitionKeyword isRec ≠ [] ∧ (definitionKeyword isRec).all isWordChar = true := by
  cases isRec <;> decide

/-- The common part of `def` and `rec`: `parse1` on a definition whose name
is not yet bound and whose body parses, with the name bound to the placeholder,
to `B`. -/
theorem parse1_definition (isRec : Bool) (name : String) (params : List String)
    (body : List Char) (syms : SymbolTable) (fuel : Nat) (is5 : WIStream) (B : Expression)
    (hname : isIdentifier name.data = true)
    (hparams : ∀ p ∈ params, isIdentifier p.data = true)
    (hfresh : syms.lookup name = none) (hfuel : params.length + 1 ≤ fuel)
    (hbody : parseExpression fuel
        ⟨syms.assign name (Name selfName, params.length), ParentPos.EXPRESSION⟩
        ⟨body, false, false⟩ = some (is5, some B)) :
    parse1 fuel ⟨⟨definitionText isRec name params body, false, false⟩, syms⟩ =
      some (Except.ok (name, some (definitionTerm isRec params B)),
        ⟨is5, syms.assign name (definitionTerm isRec params B, params.length)⟩) := by
  have h1 := readToken_word [] (definitionKeyword isRec)
    (' ' :: (name.data ++ (paramsText params ++ ' ' :: '=' :: body))) Token.invalid rfl
    (definitionKeyword_word isRec).1 (definitionKeyword_word isRec).2
    (delimited_cons _ _ (by decide))
  rw [classify_definitionKeyword] at h1
  simp only [List.nil_append] at h1
  have h2 := readToken_identifier [' '] name.data (paramsText params ++ ' ' :: '=' :: body)
    ⟨if isRec = true then TokenType.REC else TokenType.DEF, definitionKeyword isRec⟩
    (by decide) hname (delimited_paramsText params _)
  simp only [List.singleton_append, List.cons_append, List.nil_append] at h2
  have h3 := paramLoop_params body params hparams fuel hfuel ⟨TokenType.OBJECT, name.data⟩ []
  simp only [List.nil_append] at h3
  have hkw : ((if isRec = true then TokenType.REC else TokenType.DEF) = TokenType.DEF ∨
      (if isRec = true then TokenType.REC else TokenType.DEF) = TokenType.REC) := by
    cases isRec <;> simp
  have hrec : decide ((if isRec = true then TokenType.REC else TokenType.DEF) = TokenType.REC) =
      isRec := by
    cases isRec <;> simp
  simp only [parse1, definitionText, WIStream.tellg, WIStream.good, WIStream.eof,
    Bool.not_false, Bool.and_self, if_true, Option.isNone_some, Bool.or_self,
    Bool.false_eq_true, if_false, h1, h2, h3, to_bytes, hfresh, Option.isSome_none,
    hbody, hrec, Bool.not_true, Option.isSome_some]
  cases isRec <;> simp [definitionTerm]

end Parser

/-- What `parse1` does on `def name p1 ... pk = body` with `name` not in the
symbol table, in terms of the parse that it runs on the body, which is the one
with the private table where `name` is bound to the placeholder: it returns
`(name, T)` with `T = λp1. ... λpk.B`, the first parameter outermost and `T = B`
without parameters, and leaves a table in which `name` maps to `(T, k)` and every
other name maps to what it mapped to before. -/
theorem parse1_def_registers (name : String) (params : List String) (body : List Char)
    (syms : SymbolTable) (fuel : Nat) (is5 : WIStream) (B : Expression)
    (hname : isIdentifier name.data = true)
    (hparams : ∀ p ∈ params, isIdentifier p.data = true)
    (hfresh : syms.lookup name = none) (hfuel : params.length + 1 ≤ fuel)
    (hbody : parseExpression fuel
        ⟨syms.assign name (Name selfName, params.length), ParentPos.EXPRESSION⟩
        ⟨body, false, false⟩ = some (is5, some B)) :
    parse1 fuel ⟨⟨definitionText false name params body, false, false⟩, syms⟩ =
      some (Except.ok (name, some (params.foldr Function B)),
        ⟨is5, syms.assign name (params.foldr Function B, params.length)⟩) ∧
    (syms.assign name (params.foldr Function B, params.length)).lookup name =
      some (params.foldr Function B, params.length) ∧
    (∀ g, g ≠ name →
      (syms.assign name (params.foldr Function B, params.length)).lookup g = syms.lookup g) ∧
    (∀ (p q : String) (C : Expression),
      [p, q].foldr Function C = Function p (Function q C) ∧
      ([] : List String).foldr Function C = C) := by
  refine ⟨?_, lookup_assign_self _ _ _, fun g hg => lookup_assign_ne _ _ _ _ hg,
    fun _ _ _ => ⟨rfl, rfl⟩⟩
  have h := parse1_definition false name params body syms fuel is5 B hname hparams hfresh hfuel
    hbody
  simpa [definitionTerm] using h

/-- Claim C13, as amended. For `rec name p1 ... pk = body` with `name` not in
the symbol table and a table that holds no entry mapping to the placeholder,
when the body parses to `B` in the private table where `name` is bound to
`(Name "self^", k)`, `parse1` returns and registers
`(recursive (λself^.λp1. ... λpk.B))` with arity `k`; the table it leaves holds
no entry mapping to the placeholder, and every other name maps to what it mapped
to before. -/
theorem parse1_rec (name : String) (params : List String) (body : List Char)
    (syms : SymbolTable) (fuel : Nat) (is5 : WIStream) (B : Expression)
    (hname : isIdentifier name.data = true)
    (hparams : ∀ p ∈ params, isIdentifier p.data = true)
    (hfresh : syms.lookup name = none) (hfuel : params.length + 1 ≤ fuel)
    (hclean : ∀ g k, syms.lookup g ≠ some (Name "self^", k))
    (hbody : parseExpression fuel
        ⟨syms.assign name (Name "self^", params.length), ParentPos.EXPRESSION⟩
        ⟨body, false, false⟩ = some (is5, some B)) :
    parse1 fuel ⟨⟨definitionText true name params body, false, false⟩, syms⟩ =
      some (Except.ok (name,
          some (Application Expressions.recursive
            (Function "self^" (params.foldr Function B)))),
        ⟨is5, syms.assign name
          (Application Expressions.recursive (Function "self^" (params.foldr Function B)),
            params.length)⟩) ∧
    (syms.assign name
        (Application Expressions.recursive (Function "self^" (params.foldr Function B)),
          params.length)).lookup name =
      some (Application Expressions.recursive (Function "self^" (params.foldr Function B)),
        params.length) ∧
    (∀ g k, (syms.assign name
        (Application Expressions.recursive (Function "self^" (params.foldr Function B)),
          params.length)).lookup g ≠ some (Name "self^", k)) ∧
    (∀ g, g ≠ name →
      (syms.assign name
        (Application Expressions.recursive (Function "self^" (params.foldr Function B)),
          params.length)).lookup g = syms.lookup g) := by
  refine ⟨?_, lookup_assign_self _ _ _, ?_, fun g hg => lookup_assign_ne _ _ _ _ hg⟩
  · have h := parse1_definition true name params body syms fuel is5 B hname hparams hfresh
      hfuel hbody
    simpa [definitionTerm, selfName] using h
  · intro g k hg
    by_cases hgn : g = name
    · subst hgn
      rw [lookup_assign_self] at hg
      simp at hg
    · rw [lookup_assign_ne _ _ _ _ hgn] at hg
      exact hclean g k hg

/-- An instance: `def id x = x` with an empty table. -/
theorem parse1_def_registers_example :
    isIdentifier "id".data = true ∧ List.lookup "id" ([] : SymbolTable) = none ∧
    parseExpression 2 ⟨SymbolTable.assign [] "id" (Name selfName, 1), ParentPos.EXPRESSION⟩
        ⟨" x".data, false, false⟩ = some (⟨[], false, false⟩, some (Name "x")) ∧
    parse1 2 ⟨⟨"def id x = x".data, false, false⟩, []⟩ =
      some (Except.ok ("id", some (Function "x" (Name "x"))),
        ⟨⟨[], false, false⟩, [("id", (Function "x" (Name "x"), 1))]⟩) :=
  ⟨by decide, by decide, by decide!,
    (parse1_def_registers "id" ["x"] " x".data [] 2 ⟨[], false, false⟩ (Name "x") (by decide)
      (by decide) (by decide) (by decide) (by decide!)).1⟩

/-- Witness for Claim C13: `rec f n = f n` with an empty table. -/
theorem parse1_rec_witness :
    isIdentifier "f".data = true ∧ List.lookup "f" ([] : SymbolTable) = none ∧
    (∀ g k, List.lookup g ([] : SymbolTable) ≠ some (Name "self^", k)) ∧
    parseExpression 3 ⟨SymbolTable.assign [] "f" (Name "self^", 1), ParentPos.EXPRESSION⟩
        ⟨" f n".data, false, false⟩ =
      some (⟨[], false, true⟩, some (Application (Name "self^") (Name "n"))) ∧
    parse1 3 ⟨⟨"rec f n = f n".data, false, false⟩, []⟩ =
      some (Except.ok ("f",
          some (Application Expressions.recursive
            (Function "self^" (Function "n" (Application (Name "self^") (Name "n")))))),
        ⟨⟨[], false, true⟩,
          [("f", (Application Expressions.recursive
            (Function "self^" (Function "n" (Application (Name "self^") (Name "n")))), 1))]⟩) :=
  ⟨by decide, by decide, (fun _ _ h => by cases h), by decide!,
    (parse1_rec "f" ["n"] " f n".data [] 3 ⟨[], false, true⟩
      (Application (Name "self^") (Name "n")) (by decide) (by decide) (by decide) (by decide)
      (fun _ _ h => by cases h) (by decide!)).1⟩

/-! ### More fuel never changes a result -/

namespace Parser

theorem implicitLoop_mono (pe pe2 : ParseFun)
    (hle : ∀ c s, pe c s ≠ none → pe2 c s = pe c s) (ctx : ParseContext) (n : Nat) :
    ∀ (result : Expression) (is : WIStream),
      implicitLoop pe ctx n result is ≠ none →
      implicitLoop pe2 ctx n result is = implicitLoop pe ctx n result is := by
  induction n with
  | zero =>
    intro result is h
    unfold implicitLoop at h ⊢
    cases hp : pe ⟨ctx.syms, ParentPos.EXPRESSION⟩ is with
    | none => simp [hp] at h
    | some x => rw [hle _ _ (by simp [hp]), hp]
  | succ n ih =>
    intro result is h
    unfold implicitLoop at h ⊢
    cases hp : pe ⟨ctx.syms, ParentPos.EXPRESSION⟩ is with
    | none => simp [hp] at h
    | some x =>
      rw [hle _ _ (by simp [hp]), hp]
      rw [hp] at h
      obtain ⟨is1, e⟩ := x
      cases e with
      | none => rfl
      | some p => exact ih _ _ h

theorem parseImplicitApplication_mono (pe pe2 : ParseFun)
    (hle : ∀ c s, pe c s ≠ none → pe2 c s = pe c s) (func : Expression × Nat)
    (ctx : ParseContext) (is : WIStream)
    (h : parseImplicitApplication pe func ctx is ≠ none) :
    parseImplicitApplication pe2 func ctx is = parseImplicitApplication pe func ctx is := by
  unfold parseImplicitApplication at h ⊢
  simp only [] at h ⊢
  split
  · rename_i hc
    rw [if_pos hc] at h
    cases hl : implicitLoop pe ctx (func.2 - 1) func.1 is.tellg.1 with
    | none => simp [hl] at h
    | some x => rw [implicitLoop_mono pe pe2 hle ctx _ _ _ (by simp [hl]), hl]
  · rfl

theorem substitute_mono_some (pe pe2 : ParseFun)
    (hle : ∀ c s, pe c s ≠ none → pe2 c s = pe c s) (ctx : ParseContext) (is : WIStream)
    (res : ParseResult) (h : substitute pe ctx is = some res) :
    substitute pe2 ctx is = some res := by
  have hI := parseImplicitApplication_mono pe pe2 hle
  unfold substitute at h ⊢
  simp only [] at h ⊢
  repeat' split at h
  all_goals first
    | (simp at h; done)
    | (simp only [Option.some.injEq] at h; subst h; simp_all)

theorem substitute_mono (pe pe2 : ParseFun)
    (hle : ∀ c s, pe c s ≠ none → pe2 c s = pe c s) (ctx : ParseContext) (is : WIStream)
    (h : substitute pe ctx is ≠ none) :
    substitute pe2 ctx is = substitute pe ctx is := by
  cases hx : substitute pe ctx is with
  | none => exact absurd hx h
  | some res => exact substitute_mono_some pe pe2 hle ctx is res hx

theorem parseApplication_mono_some (pe pe2 : ParseFun)
    (hle : ∀ c s, pe c s ≠ none → pe2 c s = pe c s) (ctx : ParseContext) (is : WIStream)
    (res : ParseResult) (h : parseApplication pe ctx is = some res) :
    parseApplication pe2 ctx is = some res := by
  unfold parseApplication at h ⊢
  simp only [] at h ⊢
  repeat' split at h
  all_goals first
    | (simp at h; done)
    | (simp only [Option.some.injEq] at h; subst h; simp_all)

theorem parseApplication_mono (pe pe2 : ParseFun)
    (hle : ∀ c s, pe c s ≠ none → pe2 c s = pe c s) (ctx : ParseContext) (is : WIStream)
    (h : parseApplication pe ctx is ≠ none) :
    parseApplication pe2 ctx is = parseApplication pe ctx is := by
  cases hx : parseApplication pe ctx is with
  | none => exact absurd hx h
  | some res => exact parseApplication_mono_some pe pe2 hle ctx is res hx

theorem parseConditional_mono_some (kwIf kwThen kwElse : TokenType)
    (conditional : Expression) (pe pe2 : ParseFun)
    (hle : ∀ c s, pe c s ≠ none → pe2 c s = pe c s) (ctx : ParseContext)
    (is : WIStream) (res : ParseResult)
    (h : parseConditional kwIf kwThen kwElse conditional pe ctx is = some res) :
    parseConditional kwIf kwThen kwElse conditional pe2 ctx is = some res := by
  unfold parseConditional at h ⊢
  simp only [] at h ⊢
  repeat' split at h
  all_goals first
    | (simp at h; done)
    | (simp only [Option.some.injEq] at h; subst h; simp_all)

theorem parseConditional_mono (kwIf kwThen kwElse : TokenType) (conditional : Expression)
    (pe pe2 : ParseFun) (hle : ∀ c s, pe c s ≠ none → pe2 c s = pe c s) (ctx : ParseContext)
    (is : WIStream)
    (h : parseConditional kwIf kwThen kwElse conditional pe ctx is ≠ none) :
    parseConditional kwIf kwThen kwElse conditional pe2 ctx is =
      parseConditional kwIf kwThen kwElse conditional pe ctx is := by
  cases hx : parseConditional kwIf kwThen kwElse conditional pe ctx is with
  | none => exact absurd hx h
  | some res => exact parseConditional_mono_some _ _ _ _ pe pe2 hle ctx is res hx

theorem parseFunctionStep_mono_some (pf pe pf2 pe2 : ParseFun)
    (hlf : ∀ c s, pf c s ≠ none → pf2 c s = pf c s)
    (hle : ∀ c s, pe c s ≠ none → pe2 c s = pe c s) (ctx : ParseContext) (is : WIStream)
    (res : ParseResult) (h : parseFunctionStep pf pe ctx is = some res) :
    parseFunctionStep pf2 pe2 ctx is = some res := by
  unfold parseFunctionStep at h ⊢
  simp only [] at h ⊢
  repeat' split at h
  all_goals first
    | (simp at h; done)
    | (simp only [Option.some.injEq] at h; subst h; simp_all)

theorem parseFunctionStep_mono (pf pe pf2 pe2 : ParseFun)
    (hlf : ∀ c s, pf c s ≠ none → pf2 c s = pf c s)
    (hle : ∀ c s, pe c s ≠ none → pe2 c s = pe c s) (ctx : ParseContext) (is : WIStream)
    (h : parseFunctionStep pf pe ctx is ≠ none) :
    parseFunctionStep pf2 pe2 ctx is = parseFunctionStep pf pe ctx is := by
  cases hx : parseFunctionStep pf pe ctx is with
  | none => exact absurd hx h
  | some res => exact parseFunctionStep_mono_some pf pe pf2 pe2 hlf hle ctx is res hx

theorem parseExpressionStep_mono_some (pf pe pf2 pe2 : ParseFun)
    (hlf : ∀ c s, pf c s ≠ none → pf2 c s = pf c s)
    (hle : ∀ c s, pe c s ≠ none → pe2 c s = pe c s) (ctx : ParseContext) (is : WIStream)
    (res : ParseResult) (h : parseExpressionStep pf pe ctx is = some res) :
    parseExpressionStep pf2 pe2 ctx is = some res := by
  have h1 := parseConditional_mono TokenType.IF TokenType.THEN TokenType.ELSE Expressions.cond
    pe pe2 hle
  have h2 := parseConditional_mono TokenType.IF_TYPED TokenType.THEN_TYPED TokenType.ELSE_TYPED
    Expressions.typed_cond pe pe2 hle
  have h3 := substitute_mono pe pe2 hle
  have h4 := parseFunctionStep_mono pf pe pf2 pe2 hlf hle
  have h5 := parseApplication_mono pe pe2 hle
  unfold parseExpressionStep parseIfThenElse parseTypedIfThenElse at h ⊢
  repeat' split at h
  all_goals first
    | (simp at h; done)
    | (simp only [Option.some.injEq] at h; subst h; simp_all)

theorem parseExpressionStep_mono (pf pe pf2 pe2 : ParseFun)
    (hlf : ∀ c s, pf c s ≠ none → pf2 c s = pf c s)
    (hle : ∀ c s, pe c s ≠ none → pe2 c s = pe c s) (ctx : ParseContext) (is : WIStream)
    (h : parseExpressionStep pf pe ctx is ≠ none) :
    parseExpressionStep pf2 pe2 ctx is = parseExpressionStep pf pe ctx is := by
  cases hx : parseExpressionStep pf pe ctx is with
  | none => exact absurd hx h
  | some res => exact parseExpressionStep_mono_some pf pe pf2 pe2 hlf hle ctx is res hx

theorem parsers_succ_mono (n : Nat) :
    (∀ c s, (parsers n).1 c s ≠ none → (parsers (n + 1)).1 c s = (parsers n).1 c s) ∧
    (∀ c s, (parsers n).2 c s ≠ none → (parsers (n + 1)).2 c s = (parsers n).2 c s) := by
  induction n with
  | zero => exact ⟨fun c s h => absurd rfl h, fun c s h => absurd rfl h⟩
  | succ n ih =>
    constructor
    · intro c s h
      exact parseFunctionStep_mono _ _ _ _ ih.1 ih.2 c s h
    · intro c s h
      exact parseExpressionStep_mono _ _ _ _ ih.1 ih.2 c s h

/-- A result of `parse<Expression>` obtained with some fuel is the result with
any larger fuel. -/
theorem parseExpression_mono (n m : Nat) (hnm : n ≤ m) (ctx : ParseContext) (is : WIStream)
    (res : ParseResult) (h : parseExpression n ctx is = some res) :
    parseExpression m ctx is = some res := by
  induction m with
  | zero =>
    have : n = 0 := by omega
    subst this
    exact h
  | succ m ih =>
    by_cases hn : n = m + 1
    · subst hn; exact h
    · have h2 := ih (by omega)
      have h3 := (parsers_succ_mono m).2 ctx is (by
        show parseExpression m ctx is ≠ none
        rw [h2]; simp)
      show (parsers (m + 1)).2 ctx is = some res
      rw [h3]
      exact h2

theorem paramLoop_mono (n : Nat) : ∀ (is : WIStream) (tok : Token) (varq : List String)
    (res : WIStream × Token × List String),
    paramLoop n is tok varq = some res → paramLoop (n + 1) is tok varq = some res := by
  induction n with
  | zero => intro is tok varq res h; simp [paramLoop] at h
  | succ n ih =>
    intro is tok varq res h
    rw [paramLoop] at h ⊢
    split at h
    · rename_i hc
      rw [if_pos hc]
      exact ih _ _ _ _ h
    · rename_i hc
      rw [if_neg hc]
      exact h

theorem paramLoop_mono_le (n m : Nat) (hnm : n ≤ m) (is : WIStream) (tok : Token)
    (varq : List String) (h : paramLoop n is tok varq ≠ none) :
    paramLoop m is tok varq = paramLoop n is tok varq := by
  cases hx : paramLoop n is tok varq with
  | none => exact absurd hx h
  | some res =>
    clear h
    induction m with
    | zero =>
      have : n = 0 := by omega
      subst this
      exact hx
    | succ m ih =>
      by_cases hn : n = m + 1
      · subst hn; exact hx
      · exact paramLoop_mono m _ _ _ _ (ih (by omega))

theorem parseExpression_mono_le (n m : Nat) (hnm : n ≤ m) (ctx : ParseContext) (is : WIStream)
    (h : parseExpression n ctx is ≠ none) :
    parseExpression m ctx is = parseExpression n ctx is := by
  cases hx : parseExpression n ctx is with
  | none => exact absurd hx h
  | some res => exact parseExpression_mono n m hnm ctx is res hx

set_option maxHeartbeats 2000000 in
/-- A result of `parse1` obtained with some fuel is the result with any larger
fuel. -/
theorem parse1_mono (n m : Nat) (hnm : n ≤ m) (eb : ExpressionBuilder)
    (res : Except String (String × Option Expression) × ExpressionBuilder)
    (h : parse1 n eb = some res) : parse1 m eb = some res := by
  have hP := paramLoop_mono_le n m hnm
  have hE := parseExpression_mono_le n m hnm
  unfold parse1 at h ⊢
  simp only [] at h ⊢
  repeat' split at h
  all_goals first
    | (simp at h; done)
    | (simp only [Option.some.injEq] at h; subst h; simp_all)

end Parser

/-! ### Implicit application -/

namespace Parser

/-- When the loop of `parseImplicitApplication` returns an application, it has
applied the symbol to exactly `nlevel + 1` parsed arguments. -/
theorem implicitLoop_some (pe : ParseFun) (ctx : ParseContext) (n : Nat) :
    ∀ (result : Expression) (is is2 : WIStream) (app : Expression),
      implicitLoop pe ctx n result is = some (is2, some app) →
      ∃ args : List Expression, args.length = n + 1 ∧ app = args.foldl Application result := by
  induction n with
  | zero =>
    intro result is is2 app h
    unfold implicitLoop at h
    split at h
    · simp at h
    · simp at h
    · rename_i is1 p hp
      simp only [] at h
      split at h
      · simp only [Option.some.injEq, Prod.mk.injEq] at h
        exact ⟨[p], rfl, h.2.symm⟩
      · simp at h
  | succ n ih =>
    intro result is is2 app h
    unfold implicitLoop at h
    split at h
    · simp at h
    · simp at h
    · rename_i is1 p hp
      obtain ⟨args, hlen, happ⟩ := ih _ _ _ _ h
      exact ⟨p :: args, by simp [hlen], by simpa using happ⟩

/-- Resolving a bound identifier is all or nothing: whenever `substitute`
succeeds, the identifier read is bound in the table, to `F` with arity `n` say,
and the term returned is either `F` alone or `F` applied to exactly `n`
arguments, with `n ≥ 1`. -/
theorem substitute_all_or_nothing (pe : ParseFun) (ctx : ParseContext) (is is2 : WIStream)
    (e : Expression) (h : substitute pe ctx is = some (is2, some e)) :
    ∃ (F : Expression) (n : Nat),
      ctx.syms.lookup (to_bytes (readToken is.tellg.1 Token.invalid).2.val) = some (F, n) ∧
      (e = F ∨ (1 ≤ n ∧ ∃ args : List Expression,
        args.length = n ∧ e = args.foldl Application F)) := by
  unfold substitute at h
  simp only [] at h
  split at h
  · split at h
    · split at h
      · rename_i it hit
        obtain ⟨F, n⟩ := it
        refine ⟨F, n, hit, ?_⟩
        split at h
        · simp at h
        · rename_i is1 app happ
          simp only [Option.some.injEq, Prod.mk.injEq] at h
          right
          unfold parseImplicitApplication at happ
          simp only [] at happ
          split at happ
          · rename_i hn
            split at happ
            · simp at happ
            · rename_i is3 app2 hloop
              simp only [Option.some.injEq, Prod.mk.injEq] at happ
              obtain ⟨args, hlen, hargs⟩ := implicitLoop_some pe ctx _ _ _ _ _ hloop
              refine ⟨hn, args, by omega, ?_⟩
              rw [← h.2, ← happ.2, hargs]
            · simp at happ
          · simp at happ
        · simp only [Option.some.injEq, Prod.mk.injEq] at h
          exact Or.inl h.2.symm
      · simp at h
    · simp at h
  · simp at h

end Parser

/-- Claim C15, the code at the failing input. With `f` bound to `F` with arity 2
and the input `f a`, `substitute` succeeds with `F` alone, but the stream is not
back just after the identifier: it is left at the end of the input with
`failbit` set, so that `parse1` returns `F` and the next call reports the end of
the input, the `a` being lost. (After `def add1arg x = x`, the input `add1arg`
does parse to `λx.x`.) -/
theorem substitute_loses_input_at_end :
    substitute (parseExpression 3) ⟨[("f", (Name "F", 2))], ParentPos.EXPRESSION⟩
        ⟨"f a".data, false, false⟩ =
      some (⟨[], false, true⟩, some (Name "F")) ∧
    parse1 4 ⟨⟨"f a".data, false, false⟩, [("f", (Name "F", 2))]⟩ =
      some (Except.ok ("", some (Name "F")), ⟨⟨[], false, true⟩, [("f", (Name "F", 2))]⟩) ∧
    parse1 4 ⟨⟨[], false, true⟩, [("f", (Name "F", 2))]⟩ =
      some (Except.ok ("_", none), ⟨⟨[], false, true⟩, [("f", (Name "F", 2))]⟩) ∧
    parse1 4 ⟨⟨"add1arg".data, false, false⟩, [("add1arg", (Function "x" (Name "x"), 1))]⟩ =
      some (Except.ok ("", some (Function "x" (Name "x"))),
        ⟨⟨[], false, true⟩, [("add1arg", (Function "x" (Name "x"), 1))]⟩) := by
  refine ⟨by decide!, by decide!, by decide!, by decide!⟩

/-! ### A bound symbol at the head of a parenthesized application -/

theorem hasRedex_Application (f a : Expression) :
    hasRedex (Application f a) =
      match f with
      | Function _ _ => true
      | _ => hasRedex f || hasRedex a := by
  cases f <;> simp [hasRedex]

theorem Nreduce1_Application_Application (g c a : Expression) :
    Nreduce1 (Application (Application g c) a) =
      match Nreduce1 (Application g c) with
      | some f2 => some (Application f2 a)
      | none => Option.map (Application (Application g c)) (Nreduce1 a) := by
  conv => lhs; rw [Nreduce1]
  simp only [Expression.apply]
  cases Nreduce1 (Application g c) <;> cases Nreduce1 a <;> rfl

theorem Nreduce1_eq_none_iff (t : Expression) : Nreduce1 t = none ↔ hasRedex t = false := by
  induction t with
  | Name m => simp [Nreduce1, hasRedex]
  | Function v b ih =>
    simp only [Nreduce1, hasRedex]
    cases h : Nreduce1 b with
    | none => simpa using ih.mp h
    | some u =>
      have : hasRedex b ≠ false := fun hb => by rw [ih.mpr hb] at h; cases h
      simpa using this
  | Application f a ihf iha =>
    cases f with
    | Function v b => simp [Nreduce1, Expression.apply, hasRedex]
    | Name m =>
      simp only [Nreduce1, Expression.apply, hasRedex]
      cases h : Nreduce1 a with
      | none => simpa using iha.mp h
      | some u =>
        have : hasRedex a ≠ false := fun hb => by rw [iha.mpr hb] at h; cases h
        simpa using this
    | Application g c =>
      simp only [Nreduce1_Application_Application g c a, hasRedex_Application _ a]
      cases hf : Nreduce1 (Application g c) with
      | some u =>
        have : hasRedex (Application g c) ≠ false := fun hb => by rw [ihf.mpr hb] at hf; cases hf
        simpa using fun h => absurd h this
      | none =>
        have hf2 := ihf.mp hf
        cases h : Nreduce1 a with
        | none => simpa [hf2] using iha.mp h
        | some u =>
          have : hasRedex a ≠ false := fun hb => by rw [iha.mpr hb] at h; cases h
          simpa [hf2] using this

theorem Areduce1_eq_none_iff (t : Expression) : Areduce1 t = none ↔ hasRedex t = false := by
  cases t with
  | Name m => simp [Areduce1, hasRedex]
  | Function v b =>
    have ih := Nreduce1_eq_none_iff b
    simp only [Areduce1, hasRedex]
    cases h : Nreduce1 b with
    | none => simpa using ih.mp h
    | some u =>
      have : hasRedex b ≠ false := fun hb => by rw [ih.mpr hb] at h; cases h
      simpa using this
  | Application f a =>
    have ihf := Nreduce1_eq_none_iff f
    have iha := Nreduce1_eq_none_iff a
    simp only [Areduce1]
    cases h : Nreduce1 a with
    | some u =>
      have h1 : hasRedex a ≠ false := fun hb => by rw [iha.mpr hb] at h; cases h
      have h2 : hasRedex a = true := by simpa using h1
      cases f <;> simp [hasRedex, h2]
    | none =>
      have ha := iha.mp h
      cases f with
      | Function v b => simp [Expression.apply, hasRedex]
      | Name m => simp [Expression.apply, Nreduce1, hasRedex, ha]
      | Application g c =>
        simp only [Expression.apply, hasRedex_Application _ a]
        cases hf : Nreduce1 (Application g c) with
        | some u =>
          have : hasRedex (Application g c) ≠ false := fun hb => by
            rw [ihf.mpr hb] at hf; cases hf
          simpa using fun h => absurd h this
        | none => simpa [ha] using ihf.mp hf

/-- Whatever the counter on entry, a term returned by the loop of `reduce` is
one on which `Areduce1` finds no redex. -/
theorem reduceLoop_ok (r : Expression) (k : Nat) :
    ∀ (i : Nat) (t : Expression), (2 ^ 32 - i % 2 ^ 32) % 2 ^ 32 ≤ k →
      reduceLoop i t = Except.ok r → Areduce1 r = none := by
  induction k with
  | zero =>
    intro i t hi h
    have h0 : ¬ 0 < i % 2 ^ 32 := by omega
    rw [reduceLoop_eq, if_neg h0] at h
    cases h
  | succ k ih =>
    intro i t hi h
    rw [reduceLoop_eq] at h
    by_cases h0 : 0 < i % 2 ^ 32
    · rw [if_pos h0] at h
      cases hA : Areduce1 t with
      | none =>
        rw [hA] at h
        simp only [Except.ok.injEq] at h
        rw [← h]; exact hA
      | some u =>
        rw [hA] at h
        exact ih _ u (by omega) h
    · rw [if_neg h0] at h
      cases h

/-- The loop of `reduce` follows `AreduceN`: entered with a counter that stays
below the wrap-around, it returns the term reached after `n` steps when that
term has no redex left. -/
theorem reduceLoop_of_AreduceN (n : Nat) : ∀ (i : Nat) (t u : Expression), 0 < i →
    i + n < 2 ^ 32 → AreduceN n t = some u → Areduce1 u = none →
    reduceLoop i t = Except.ok u := by
  induction n with
  | zero =>
    intro i t u h0 hlt h hu
    have h1 : 0 < i % 2 ^ 32 := by omega
    simp only [AreduceN, Option.some.injEq] at h
    subst h
    rw [reduceLoop_eq, hu, if_pos h1]
  | succ n ih =>
    intro i t u h0 hlt h hu
    have h1 : 0 < i % 2 ^ 32 := by omega
    have h2 : (i + 1) % 2 ^ 32 = i + 1 := by omega
    simp only [AreduceN] at h
    cases hA : Areduce1 t with
    | none => simp [hA] at h
    | some v =>
      simp only [hA] at h
      rw [reduceLoop_eq, hA, if_pos h1, h2]
      exact ih (i + 1) v u (by omega) (by omega) h hu

/-- Claim C26. `Nreduce1` finds no redex exactly when `Areduce1` finds none,
exactly when no subterm of the term is an application of an abstraction; hence a
term returned by `reduce` has no redex anywhere. -/
theorem reducers_stuck_iff_normal (t r : Expression) :
    (Nreduce1 t = none ↔ Areduce1 t = none) ∧
    (Areduce1 t = none ↔ hasRedex t = false) ∧
    (reduce t = Except.ok r → hasRedex r = false) :=
  ⟨(Nreduce1_eq_none_iff t).trans (Areduce1_eq_none_iff t).symm, Areduce1_eq_none_iff t,
    fun h => (Areduce1_eq_none_iff r).mp
      (reduceLoop_ok r _ MAX_REDUCE_STEPS t (Nat.le_refl _) h)⟩

/-- Witness for Claim C26: `reduce` returns `z` on `((λx.x) z)`. -/
theorem reducers_stuck_iff_normal_witness :
    reduce (idChain 1) = Except.ok (Name "z") ∧ hasRedex (Name "z") = false :=
  ⟨reduceLoop_idChain 1 1024 (by decide) (by decide),
    (reducers_stuck_iff_normal (idChain 1) (Name "z")).2.2
      (reduceLoop_idChain 1 1024 (by decide) (by decide))⟩

/-! ### Substitution for a name that is not free -/

/-- Claim C27. For a name `n` without free occurrence in `t` and a replacement
`r` that is not a `Name` equal to a binder occurring in `t`, `replace(n, r, t)`
returns the flag false and the term `t` itself; this covers every replacement
that is an abstraction or an application. -/
theorem replace_not_free_unchanged (t : Expression) (n : String) (r : Expression)
    (hfree : isFree n t = false) (hr : collidesIn r t = false) :
    replace n r t = (false, t) ∧
    (∀ r2 : Expression, isName r2 = false → replace n r2 t = (false, t)) :=
  ⟨replace_of_not_isFree n r t hfree hr,
    fun r2 h2 => replace_of_not_isFree n r2 t hfree (collidesIn_of_not_isName r2 t h2)⟩

/-- Witness for Claim C27: `y` is not free in `λx.(x λy.y)` and the replacement `z`
names no binder of it. -/
theorem replace_not_free_unchanged_witness :
    isFree "y" (Function "x" (Application (Name "x") (Function "y" (Name "y")))) = false ∧
    collidesIn (Name "z") (Function "x" (Application (Name "x") (Function "y" (Name "y")))) =
      false ∧
    replace "y" (Name "z") (Function "x" (Application (Name "x") (Function "y" (Name "y")))) =
      (false, Function "x" (Application (Name "x") (Function "y" (Name "y")))) :=
  ⟨by decide, by decide,
    (replace_not_free_unchanged _ "y" (Name "z") (by decide) (by decide)).1⟩

/-! ### Termination of `replace` -/

/-- The calls of `replace` nest at most twice as deep as the term is large: with
that much fuel `replaceFuel` returns, and returns what `replace` returns. -/
theorem replaceFuel_complete (k : Nat) : ∀ (t : Expression), t.size ≤ k →
    ∀ (fuel : Nat), 2 * k ≤ fuel → ∀ (name : String) (expr : Expression),
      replaceFuel fuel name expr t = some (replace name expr t) := by
  induction k with
  | zero =>
    intro t ht
    have := size_pos t
    omega
  | succ k ih =>
    intro t ht fuel hfuel name expr
    obtain ⟨f1, rfl⟩ : ∃ f1, fuel = f1 + 1 := ⟨fuel - 1, by omega⟩
    cases t with
    | Name m =>
      rw [replace_Name]
      by_cases h : name = m <;> simp [replaceFuel, h]
    | Application f a =>
      simp only [size] at ht
      rw [replace_Application]
      simp only [replaceFuel, ih f (by omega) f1 (by omega) name expr,
        ih a (by omega) f1 (by omega) name expr]
    | Function v b =>
      simp only [size] at ht
      by_cases hc : collides expr v = true
      · have he : expr = Name v := (collides_iff expr v).mp hc
        subst he
        obtain ⟨f2, rfl⟩ : ∃ f2, f1 = f2 + 1 := ⟨f1 - 1, by omega⟩
        have hb := ih b (by omega) (f2 + 1) (by omega) v (Name ("^" ++ v))
        have hsz : (replace v (Name ("^" ++ v)) b).2.size ≤ k := by
          rw [replace_size_Name]; omega
        have hb2 := ih (replace v (Name ("^" ++ v)) b).2 hsz f2 (by omega) name (Name v)
        have hne : collides (Name v) ("^" ++ v) = false := by
          simp [collides, (decorated_ne v).symm]
        rw [replace_Function_self]
        rw [replaceFuel]
        simp only [hc, if_true, hb]
        rw [replaceFuel]
        simp only [hne, hb2]
        by_cases hn : name = "^" ++ v <;> simp [hn]
      · have hc2 : collides expr v = false := by simpa using hc
        have hb := ih b (by omega) f1 (by omega) name expr
        rw [replace_Function]
        rw [replaceFuel]
        simp only [hc2, hb]
        by_cases hn : name = v <;> simp [hn]

/-- Claim C25. `replace` terminates on every input: its calls nest at most
`2 * size t` deep, so that with that much fuel (or more) the recursion of the
source returns the result; the abstraction retried by the alpha-conversion
branch has the size of the original, and its binder `"^" ++ v` differs from the
replacement `Name v`, so the branch is not taken again on it. -/
theorem replace_terminates (name : String) (expr t : Expression) (k : Nat) (v : String)
    (b : Expression) :
    replaceFuel (2 * t.size + k) name expr t = some (replace name expr t) ∧
    (Aconvert v b ("^" ++ v)).size = (Function v b).size ∧
    collides (Name v) ("^" ++ v) = false :=
  ⟨replaceFuel_complete t.size t (Nat.le_refl _) _ (by omega) name expr,
    by simp [Aconvert, size, replace_size_Name],
    by simp [collides, (decorated_ne v).symm]⟩

/-! ### Running `Areduce1` with fuel -/

theorem Areduce1Fuel_sound (fuel : Nat) (t : Expression) (r : Option Expression)
    (h : Areduce1Fuel fuel t = some r) : Areduce1 t = r := by
  cases t with
  | Name m => simp [Areduce1Fuel] at h; simp [Areduce1, h]
  | Function v b =>
    simp only [Areduce1Fuel] at h
    cases h1 : Nreduce1Fuel fuel b with
    | none => simp [h1] at h
    | some r1 =>
      have hb := Nreduce1Fuel_sound fuel b r1 h1
      cases r1 with
      | none => simp only [h1] at h; simp [Areduce1, hb]; simpa using h
      | some u => simp only [h1] at h; simp [Areduce1, hb]; simpa using h
  | Application f a =>
    simp only [Areduce1Fuel] at h
    cases h2 : Nreduce1Fuel fuel a with
    | none => simp [h2] at h
    | some r2 =>
      have ha := Nreduce1Fuel_sound fuel a r2 h2
      cases r2 with
      | some u => simp only [h2] at h; simp [Areduce1, ha]; simpa using h
      | none =>
        simp only [h2] at h
        cases f with
        | Function v b =>
          simp only at h
          cases h1 : replaceFuel fuel v a b with
          | none => simp [h1] at h
          | some p =>
            simp only [h1] at h
            simp [Areduce1, ha, Expression.apply, Breduce, replaceFuel_sound fuel v a b p h1]
            simpa using h
        | Name m =>
          simp only [Nreduce1Fuel] at h
          simp [Areduce1, ha, Expression.apply, Nreduce1]
          simpa using h
        | Application g k =>
          simp only at h
          cases h1 : Nreduce1Fuel fuel (Application g k) with
          | none => simp [h1] at h
          | some r1 =>
            have hf := Nreduce1Fuel_sound fuel _ r1 h1
            cases r1 with
            | none => simp only [h1] at h; simp [Areduce1, ha, Expression.apply, hf]; simpa using h
            | some u => simp only [h1] at h; simp [Areduce1, ha, Expression.apply, hf]; simpa using h

theorem AnormalizeFuel_sound (fuel : Nat) : ∀ (n : Nat) (t u : Expression),
    AnormalizeFuel fuel n t = some u → AreduceN n t = some u ∧ Areduce1 u = none := by
  intro n
  induction n with
  | zero =>
    intro t u h
    simp only [AnormalizeFuel] at h
    cases h1 : Areduce1Fuel fuel t with
    | none => simp [h1] at h
    | some r =>
      cases r with
      | some v => simp [h1] at h
      | none =>
        simp only [h1, Option.some.injEq] at h
        subst h
        exact ⟨rfl, Areduce1Fuel_sound fuel t none h1⟩
  | succ n ih =>
    intro t u h
    simp only [AnormalizeFuel] at h
    cases h1 : Areduce1Fuel fuel t with
    | none => simp [h1] at h
    | some r =>
      cases r with
      | none => simp [h1] at h
      | some v =>
        simp only [h1] at h
        have := ih v u h
        simp only [AreduceN, Areduce1Fuel_sound fuel t _ h1]
        exact this

/-! ### The predecessor and the equality test of the library -/

set_option maxRecDepth 100000 in
/-- Claim C22, the code at the failing input. With the numerals of `parseInt`,
18 steps of `Nreduce1` take `(pred 2)` to the term `λx.x` without redex, the
normal form of the numeral 0, whereas the numeral 1 has the normal form
`λs.((s λx.λy.y) λx.x)`, a term of another size. -/
theorem pred_two_is_zero :
    NreduceN 18 (Application Expressions.pred (numeral 2)) = some (Function "x" (Name "x")) ∧
    Nreduce1 (Function "x" (Name "x")) = none ∧
    NreduceN 0 (numeral 0) = some (Function "x" (Name "x")) ∧
    NreduceN 1 (numeral 1) =
      some (Function "s" (Application (Application (Name "s") Expressions.select_second)
        (Function "x" (Name "x")))) ∧
    Nreduce1 (Function "s" (Application (Application (Name "s") Expressions.select_second)
        (Function "x" (Name "x")))) = none ∧
    (Function "x" (Name "x")).size = 2 ∧
    (Function "s" (Application (Application (Name "s") Expressions.select_second)
        (Function "x" (Name "x")))).size = 9 := by
  have h : normalizeFuel 10000 18 (Application Expressions.pred (numeral 2)) =
      some (Function "x" (Name "x")) := by
    decide!
  have h1 : normalizeFuel 10000 1 (numeral 1) =
      some (Function "s" (Application (Application (Name "s") Expressions.select_second)
        (Function "x" (Name "x")))) := by
    decide!
  have h2 := normalizeFuel_sound 10000 18 _ _ h
  have h3 := normalizeFuel_sound 10000 1 _ _ h1
  exact ⟨h2.1, h2.2, rfl, h3.1, h3.2, by decide, by decide⟩

set_option maxRecDepth 100000 in
/-- Claim C23, the code at the failing input. With the numerals of `parseInt`
for 1 and 2, iterating `Nreduce1` on `((equal 1) 2)` stops after 136 steps on
`select_first`, and so does iterating `Areduce1` after 131 steps, so that
`reduce` returns `select_first`, although 1 and 2 differ. -/
theorem equal_one_two_is_true :
    NreduceN 136 (Application (Application Expressions.equal (numeral 1)) (numeral 2)) =
      some Expressions.select_first ∧
    Nreduce1 Expressions.select_first = none ∧
    AreduceN 131 (Application (Application Expressions.equal (numeral 1)) (numeral 2)) =
      some Expressions.select_first ∧
    Areduce1 Expressions.select_first = none ∧
    reduce (Application (Application Expressions.equal (numeral 1)) (numeral 2)) =
      Except.ok Expressions.select_first ∧
    Expressions.select_first ≠ Expressions.select_second := by
  have h : normalizeFuel 10000 136
      (Application (Application Expressions.equal (numeral 1)) (numeral 2)) =
      some Expressions.select_first := by
    decide!
  have hA : AnormalizeFuel 10000 131
      (Application (Application Expressions.equal (numeral 1)) (numeral 2)) =
      some Expressions.select_first := by
    decide!
  have h2 := normalizeFuel_sound 10000 136 _ _ h
  have h3 := AnormalizeFuel_sound 10000 131 _ _ hA
  exact ⟨h2.1, h2.2, h3.1, h3.2,
    reduceLoop_of_AreduceN 131 MAX_REDUCE_STEPS _ _ (by decide) (by decide) h3.1 h3.2,
    by decide⟩

/-! ### Characters that start no token -/

namespace Parser

/-- On a character that starts no token, after optional whitespace, the lexer
returns an `INTLITERAL` token with empty text; the stream stays good and the
character is put back. -/
theorem readToken_malformed (ws r : List Char) (c : Char) (tok : Token)
    (hws : ws.all isspace = true) (hc : malformed c = true) :
    readToken ⟨ws ++ c :: r, false, false⟩ tok =
      (⟨c :: r, false, false⟩, ⟨TokenType.INTLITERAL, []⟩) := by
  simp only [malformed, Bool.and_eq_true, Bool.not_eq_true', beq_eq_false_iff_ne, ne_eq] at hc
  obtain ⟨⟨⟨⟨⟨⟨⟨hsp, hal⟩, hus⟩, h1⟩, h2⟩, h3⟩, h4⟩, h5⟩ := hc
  have hd := dropWhile_isspace ws hws c hsp r
  have hw : isWordChar c = false := by simp [isWordChar, hal, hus]
  simp only [readToken, WIStream.good, getChar, Bool.not_false, Bool.and_self, if_true, hd,
    h1, h2, h3, h4, h5, if_false, wordLoop_stop c [] r hw]
  simp [classify]

/-- On a character that starts no token, `parseInt` accepts the empty
`INTLITERAL` and runs its loop on the uninitialised `num`: it does not reject,
and no result is defined. -/
theorem parseInt_malformed (ws r : List Char) (c : Char) (hws : ws.all isspace = true)
    (hc : malformed c = true) : parseInt ⟨ws ++ c :: r, false, false⟩ = none := by
  have h := readToken_malformed ws r c Token.invalid hws hc
  simp [parseInt, WIStream.tellg, WIStream.good, h, WIStream.fail, extractUnsigned]

/-- On a character that starts no token, `parse<Expression>` reaches `parseInt`,
the two conditionals having stepped back. -/
theorem parseExpressionStep_malformed (pf pe : ParseFun) (ctx : ParseContext)
    (ws r : List Char) (c : Char) (hws : ws.all isspace = true) (hc : malformed c = true) :
    parseExpressionStep pf pe ctx ⟨ws ++ c :: r, false, false⟩ = none := by
  have h := readToken_malformed ws r c Token.invalid hws hc
  simp only [parseExpressionStep, parseIfThenElse, parseTypedIfThenElse]
  rw [parseConditional_reject _ _ _ _ pe ctx _ _ _ h (by decide)]
  simp only []
  rw [parseConditional_reject _ _ _ _ pe ctx _ _ _ h (by decide)]
  simp only []
  rw [parseInt_malformed ws r c hws hc]

/-- On a character that starts no token, `parse1` neither reports the end of the
input nor throws: it hands the text to `parse<Expression>`, and so has no defined
result, whatever the fuel. -/
theorem parse1_malformed (n : Nat) (syms : SymbolTable) (ws r : List Char) (c : Char)
    (hws : ws.all isspace = true) (hc : malformed c = true) :
    parse1 n ⟨⟨ws ++ c :: r, false, false⟩, syms⟩ = none := by
  have h := readToken_malformed ws r c Token.invalid hws hc
  have hp : parseExpression n ⟨syms, ParentPos.EXPRESSION⟩ ⟨ws ++ c :: r, false, false⟩ =
      none := by
    cases n with
    | zero => rfl
    | succ n =>
      rw [parseExpression_succ]
      exact parseExpressionStep_malformed _ _ _ ws r c hws hc
  simp [parse1, WIStream.tellg, WIStream.good, WIStream.eof, h, rewind, WIStream.setstate,
    WIStream.seekg, WIStream.rdstate, hp]

end Parser

/-- Claim C21, the code at the failing input. On the text `+` the lexer does
emit a token, an `INTLITERAL` with empty text, without consuming the character
and with the stream left good (the empty word passes the all-digits test).
`parseInt` does not reject that token: it takes it as a literal, the extraction
from the empty text stores nothing, and the numeral is built from the
uninitialised `num`, so that neither `parseInt` nor `parse1` has a defined result
on this text, whatever the fuel. -/
theorem malformed_character_is_lexed :
    malformed '+' = true ∧
    readToken ⟨"+".data, false, false⟩ Token.invalid =
      (⟨"+".data, false, false⟩, ⟨TokenType.INTLITERAL, []⟩) ∧
    classify [] = TokenType.INTLITERAL ∧
    extractUnsigned [] = none ∧
    parseInt ⟨"+".data, false, false⟩ = none ∧
    (∀ fuel, parse1 fuel (ExpressionBuilder.create "+" []) = none) := by
  refine ⟨by decide, by decide!, by decide, by decide, ?_, ?_⟩
  · exact parseInt_malformed [] [] '+' rfl (by decide)
  · intro fuel
    exact parse1_malformed fuel [] [] [] '+' rfl (by decide)

/-! ### A plain definition that mentions its own name -/

/-- Claim C24, the code at the failing input. With an empty symbol table,
`def f x = f` registers `f` with the term `λx.self^`, not `λx.f`: the placeholder
`self^` is bound to the name for `def` as for `rec`, and `def f = f` registers
the placeholder itself. A body that mentions another unbound name, as in
`def f x = g`, does give the `Name`. -/
theorem def_binds_placeholder :
    parse1 3 (ExpressionBuilder.create "def f x = f" []) =
      some (Except.ok ("f", some (Function "x" (Name "self^"))),
        ⟨⟨[], false, true⟩, [("f", (Function "x" (Name "self^"), 1))]⟩) ∧
    parse1 3 (ExpressionBuilder.create "def f = f" []) =
      some (Except.ok ("f", some (Name "self^")),
        ⟨⟨[], false, false⟩, [("f", (Name "self^", 0))]⟩) ∧
    parse1 3 (ExpressionBuilder.create "def f x = g" []) =
      some (Except.ok ("f", some (Function "x" (Name "g"))),
        ⟨⟨[], false, false⟩, [("f", (Function "x" (Name "g"), 1))]⟩) := by
  refine ⟨by decide!, by decide!, by decide!⟩

/-! ### The identity applied to a term without redex -/

/-- Claim C11, as amended. For every term `a` without redex (closed or not),
one step of `Areduce1` on `((λx.x) a)` returns exactly `a`. -/
theorem Areduce1_identity (a : Expression) (h : hasRedex a = false) :
    Areduce1 (Application (Function "x" (Name "x")) a) = some a := by
  have hn : Nreduce1 a = none := (Nreduce1_eq_none_iff a).mpr h
  simp [Areduce1, hn, Expression.apply, Breduce, replace_Name]

/-- Witness for Claim C11: the theorem at the closed normal form `a = λz.z`. -/
theorem Areduce1_identity_witness :
    hasRedex (Function "z" (Name "z")) = false ∧
      Areduce1 (Application (Function "x" (Name "x")) (Function "z" (Name "z"))) =
        some (Function "z" (Name "z")) :=
  ⟨rfl, Areduce1_identity (Function "z" (Name "z")) rfl⟩

/-! ### A plain definition whose body mentions the name being defined -/

/-- Claim C12, the code at the failing input. With an empty symbol table the
body ` (f x)` parses to `(f x)`, so that the claim gives `f ↦ (λx.(f x), 1)` for
`def f x = (f x)`; `parse1` returns and registers `λx.(self^ x)`, the body having
been parsed with `f` bound to the placeholder. -/
theorem def_body_parsed_with_placeholder :
    List.lookup "f" ([] : SymbolTable) = none ∧
    parseExpression 3 ⟨[], ParentPos.EXPRESSION⟩ ⟨" (f x)".data, false, false⟩ =
      some (⟨[], false, false⟩, some (Application (Name "f") (Name "x"))) ∧
    parse1 3 (ExpressionBuilder.create "def f x = (f x)" []) =
      some (Except.ok ("f", some (Function "x" (Application (Name "self^") (Name "x")))),
        ⟨⟨[], false, false⟩,
          [("f", (Function "x" (Application (Name "self^") (Name "x")), 1))]⟩) ∧
    Function "x" (Application (Name "self^") (Name "x")) ≠
      Function "x" (Application (Name "f") (Name "x")) := by
  refine ⟨by decide, by decide!, by decide!, by decide⟩

/-! ### A placeholder entry that was in the table before a `rec` -/

/-- Claim C13 fails as stated: `def g = g` on an empty table leaves
`g ↦ (self^, 0)`; on that table `f` is not bound, and after `rec f n = n` the
table still holds the entry of `g`, which maps to the placeholder. -/
theorem parse1_rec_counterexample :
    parse1 3 (ExpressionBuilder.create "def g = g" []) =
      some (Except.ok ("g", some (Name "self^")),
        ⟨⟨[], false, false⟩, [("g", (Name "self^", 0))]⟩) ∧
    List.lookup "f" [("g", (Name "self^", 0))] = none ∧
    parse1 3 (ExpressionBuilder.create "rec f n = n" [("g", (Name "self^", 0))]) =
      some (Except.ok ("f",
          some (Application Expressions.recursive (Function "self^" (Function "n" (Name "n"))))),
        ⟨⟨[], false, false⟩,
          [("f", (Application Expressions.recursive
              (Function "self^" (Function "n" (Name "n"))), 1)),
            ("g", (Name "self^", 0))]⟩) ∧
    List.lookup "g"
        [("f", (Application Expressions.recursive
            (Function "self^" (Function "n" (Name "n"))), 1)),
          ("g", (Name "self^", 0))] = some (Name "self^", 0) := by
  refine ⟨by decide!, by decide, by decide!, by decide⟩

/-! ### Claim on the argument order of the conditional -/

/-- Claim C17. The conditional takes its arguments in the order then, else,
condition: for closed `A` and `B`, five steps of `Nreduce1` take
`(((cond A) B) select_first)` to exactly `A` and `(((cond A) B) select_second)`
to exactly `B`. And on a text `if <c> then <a> else <b>` whose three parts parse
to `C`, `A` and `B`, each part being followed by the next keyword,
`parseIfThenElse` succeeds with `(((cond A) B) C)`, which is then what
`parse<Expression>` returns; conversely a successful `parseIfThenElse` has always
built its term that way. -/
theorem cond_then_else_condition (A B C : Expression) (hA : isClosed A = true)
    (hB : isClosed B = true) (n : Nat) (ctx : ParseContext)
    (ws wt we rc ra rb : List Char) (is3 : WIStream)
    (hws : ws.all isspace = true) (hwt : wt.all isspace = true) (hwe : we.all isspace = true)
    (hrc : delimited rc = true) (hra : delimited ra = true) (hrb : delimited rb = true)
    (hC : parseExpression n ⟨ctx.syms, ParentPos.EXPRESSION⟩ ⟨rc, false, false⟩ =
      some (⟨wt ++ "then".data ++ ra, false, false⟩, some C))
    (hA2 : parseExpression n ⟨ctx.syms, ParentPos.EXPRESSION⟩ ⟨ra, false, false⟩ =
      some (⟨we ++ "else".data ++ rb, false, false⟩, some A))
    (hB2 : parseExpression n ⟨ctx.syms, ParentPos.EXPRESSION⟩ ⟨rb, false, false⟩ =
      some (is3, some B)) :
    NreduceN 5 (Application (Application (Application Expressions.cond A) B)
        Expressions.select_first) = some A ∧
    NreduceN 5 (Application (Application (Application Expressions.cond A) B)
        Expressions.select_second) = some B ∧
    parseIfThenElse (parseExpression n) ctx ⟨ws ++ "if".data ++ rc, false, false⟩ =
      some (is3, some (Application (Application (Application Expressions.cond A) B) C)) ∧
    parseExpression (n + 1) ctx ⟨ws ++ "if".data ++ rc, false, false⟩ =
      some (is3, some (Application (Application (Application Expressions.cond A) B) C)) ∧
    (∀ (pe : ParseFun) (is is4 : WIStream) (e : Expression),
      parseIfThenElse pe ctx is = some (is4, some e) →
      ∃ (C2 A2 B2 : Expression) (is1 is2 : WIStream),
        (readToken is.tellg.1 Token.invalid).2.type = TokenType.IF ∧
        pe ⟨ctx.syms, ParentPos.EXPRESSION⟩ (readToken is.tellg.1 Token.invalid).1 =
          some (is1, some C2) ∧
        (readToken is1 (readToken is.tellg.1 Token.invalid).2).2.type = TokenType.THEN ∧
        pe ⟨ctx.syms, ParentPos.EXPRESSION⟩
            (readToken is1 (readToken is.tellg.1 Token.invalid).2).1 = some (is2, some A2) ∧
        (readToken is2 (readToken is1 (readToken is.tellg.1 Token.invalid).2).2).2.type =
          TokenType.ELSE ∧
        pe ⟨ctx.syms, ParentPos.EXPRESSION⟩
            (readToken is2 (readToken is1 (readToken is.tellg.1 Token.invalid).2).2).1 =
          some (is4, some B2) ∧
        e = Application (Application (Application Expressions.cond A2) B2) C2) := by
  have h1 := readToken_word ws "if".data rc Token.invalid hws (by decide) (by decide) hrc
  have h2 := readToken_word wt "then".data ra ⟨TokenType.IF, "if".data⟩ hwt (by decide)
    (by decide) hra
  have h3 := readToken_word we "else".data rb ⟨TokenType.THEN, "then".data⟩ hwe (by decide)
    (by decide) hrb
  have k1 : classify "if".data = TokenType.IF := by decide
  have k2 : classify "then".data = TokenType.THEN := by decide
  have k3 : classify "else".data = TokenType.ELSE := by decide
  rw [k1] at h1
  rw [k2] at h2
  rw [k3] at h3
  have hIf : parseIfThenElse (parseExpression n) ctx ⟨ws ++ "if".data ++ rc, false, false⟩ =
      some (is3, some (Application (Application (Application Expressions.cond A) B) C)) := by
    simp only [parseIfThenElse, parseConditional, WIStream.tellg, WIStream.good, Bool.not_false,
      Bool.and_self, if_true, Option.isSome_some, h1, hC, h2, hA2, h3, hB2, decide_True,
      Bool.true_and]
  refine ⟨?_, ?_, hIf, ?_, ?_⟩
  · have h := NreduceN_add 3 2 _ _ (Expressions.cond_steps A B Expressions.select_first hA hB rfl)
    rw [h]
    exact Expressions.select_first_steps A B hA hB
  · have h := NreduceN_add 3 2 _ _ (Expressions.cond_steps A B Expressions.select_second hA hB rfl)
    rw [h]
    exact Expressions.select_second_steps A B hA
  · rw [parseExpression_succ]
    simp only [parseExpressionStep, hIf]
  · intro pe is is4 e h
    exact parseConditional_some _ _ _ _ pe ctx is is4 e h

/-- Witness for Claim C17: the text `if c then λa.a else λb.b` with an empty
symbol table. -/
theorem cond_then_else_condition_witness :
    isClosed (Function "a" (Name "a")) = true ∧ isClosed (Function "b" (Name "b")) = true ∧
    parseExpression 2 ⟨[], ParentPos.EXPRESSION⟩ ⟨" c then λa.a else λb.b".data, false, false⟩ =
      some (⟨" then λa.a else λb.b".data, false, false⟩, some (Name "c")) ∧
    parseExpression 2 ⟨[], ParentPos.EXPRESSION⟩ ⟨" λa.a else λb.b".data, false, false⟩ =
      some (⟨" else λb.b".data, false, false⟩, some (Function "a" (Name "a"))) ∧
    parseExpression 2 ⟨[], ParentPos.EXPRESSION⟩ ⟨" λb.b".data, false, false⟩ =
      some (⟨[], false, false⟩, some (Function "b" (Name "b"))) ∧
    NreduceN 5 (Application (Application (Application Expressions.cond
        (Function "a" (Name "a"))) (Function "b" (Name "b")))
        Expressions.select_first) = some (Function "a" (Name "a")) ∧
    NreduceN 5 (Application (Application (Application Expressions.cond
        (Function "a" (Name "a"))) (Function "b" (Name "b")))
        Expressions.select_second) = some (Function "b" (Name "b")) ∧
    parseExpression 3 ⟨[], ParentPos.EXPRESSION⟩ ⟨"if c then λa.a else λb.b".data, false, false⟩ =
      some (⟨[], false, false⟩,
        some (Application (Application (Application Expressions.cond
          (Function "a" (Name "a"))) (Function "b" (Name "b"))) (Name "c"))) :=
  have h := cond_then_else_condition (Function "a" (Name "a")) (Function "b" (Name "b"))
    (Name "c") (by decide) (by decide) 2 ⟨[], ParentPos.EXPRESSION⟩
    [] " ".data " ".data " c then λa.a else λb.b".data " λa.a else λb.b".data " λb.b".data
    ⟨[], false, false⟩ (by decide) (by decide) (by decide) (by decide) (by decide) (by decide)
    (by decide!) (by decide!) (by decide!)
  ⟨by decide, by decide, by decide!, by decide!, by decide!, h.1, h.2.1, h.2.2.2.1⟩

end Lambda
